import Mathlib

/-
Verification of the device-type propagation pass
(torch/csrc/jit/passes/device_type_analysis.cpp).

The pass is embedded shallowly: the mutable graph is a table assigning a
type (tensor with optional device and optional rank, or non-tensor) to each
value id, and every mutating operation is a function from that table to a
new table together with the "changed" boolean the code computes.  A C++
exception (Type::expect failure, vector::at out of range, or a failed
TORCH_INTERNAL_ASSERT) is modelled by returning none.
-/

namespace DeviceTypeAnalysis

/-- Value identifiers: SSA-style handles for the graph's values. -/
abbrev ValueId := Nat

/-- Model of c10::Device: an equality-comparable compute location.
A device with dtype 0 is the default host (CPU) location. -/
structure Device where
  dtype : Nat
  index : Nat
deriving DecidableEq

/-- Device::is_cpu. -/
def Device.is_cpu (d : Device) : Bool := d.dtype == 0

/-- The fragment of TensorType that the pass reads or writes: the optional
device annotation and the optional symbolic rank. -/
structure TensorType where
  device : Option Device
  rank : Option Nat
deriving DecidableEq

/-- TensorType::withDevice: a copy with the device annotation replaced and
all other fields kept. -/
def TensorType.withDevice (t : TensorType) (device : Option Device) : TensorType :=
  { t with device := device }

/-- A value's type: tensor-typed values carry device and rank metadata,
every other type is opaque to this pass. -/
inductive JType where
  | tensor (t : TensorType)
  | other
deriving DecidableEq

/-- Type::cast of TensorType: some on tensor types, none otherwise. -/
def JType.castTensor : JType → Option TensorType
  | .tensor t => some t
  | .other => none

def JType.isTensor : JType → Bool
  | .tensor _ => true
  | .other => false

/-- Declared parameter types in an operator schema (the fragment needed by
the device-argument scan). -/
inductive ArgType where
  | device
  | tensorTy
  | intTy
  | noneTy
  | optional (t : ArgType)
deriving DecidableEq

/-- The subtype test used by the pass, as in c10: a type is a subtype of
itself, and a type is a subtype of an optional whose payload admits it.
The code calls this as DeviceObjType::get()->isSubtypeOf(argument.type()). -/
def ArgType.isSubtypeOf : ArgType → ArgType → Bool
  | a, .optional b => a == ArgType.optional b || a == ArgType.noneTy || ArgType.isSubtypeOf a b
  | a, b => a == b

/-- A schema argument: only its declared type matters here. -/
structure Argument where
  type : ArgType
deriving DecidableEq

/-- A resolvable operator schema: its declared argument list. -/
structure FunctionSchema where
  arguments : List Argument
deriving DecidableEq

/-- Statically-known constant values (the result of toIValue), restricted to
the shapes the pass distinguishes. -/
inductive IValue where
  | noneVal
  | device (d : Device)
  | intVal (n : Int)
deriving DecidableEq

def IValue.isNone : IValue → Bool
  | .noneVal => true
  | _ => false

def IValue.isDevice : IValue → Bool
  | .device _ => true
  | _ => false

def IValue.toDevice : IValue → Device
  | .device d => d
  | _ => ⟨0, 0⟩

/-- Node kinds distinguished by the traversal: prim::If, prim::Loop,
prim::CallMethod, prim::CallFunction, prim::Constant, prim::ListConstruct,
prim::ListUnpack, aten operators, and everything else. -/
inductive NodeKind where
  | ifNode
  | loopNode
  | callMethod
  | callFunction
  | constant
  | listConstruct
  | listUnpack
  | aten
  | otherKind
deriving DecidableEq

/-- A graph node: its kind, input and output value ids, its schema when
maybeSchema succeeds, whether maybeOperator succeeds, and its child blocks.
A block is a node list paired with the block's output value ids. -/
inductive Node where
  | mk (kind : NodeKind) (inputs : List ValueId) (outputs : List ValueId)
      (schema : Option FunctionSchema) (hasOp : Bool)
      (blocks : List (List Node × List ValueId)) : Node

def Node.kind : Node → NodeKind
  | .mk k _ _ _ _ _ => k

def Node.inputs : Node → List ValueId
  | .mk _ i _ _ _ _ => i

def Node.outputs : Node → List ValueId
  | .mk _ _ o _ _ _ => o

def Node.schema : Node → Option FunctionSchema
  | .mk _ _ _ sc _ _ => sc

def Node.hasOp : Node → Bool
  | .mk _ _ _ _ h _ => h

def Node.blocks : Node → List (List Node × List ValueId)
  | .mk _ _ _ _ _ b => b

/-- The mutable per-value type table (Value::type, mutated by Value::setType). -/
abbrev TypeMap := ValueId → JType

/-- The statically-known constants of the graph (what toIValue returns for
each value; none when the value is not a static constant). -/
abbrev StaticMap := ValueId → Option IValue

/-- A graph: its top-level block's node list. -/
structure Graph where
  nodes : List Node

/-- Value::setType on the type table. -/
def setType (s : TypeMap) (v : ValueId) (t : JType) : TypeMap :=
  fun w => if w = v then t else s w

/-- setDeviceType (lines 30-37): expect a TensorType (a non-tensor type makes
expect throw, modelled as none), write the new device when it differs from
the current one, and report whether a write happened. -/
def setDeviceType (s : TypeMap) (value : ValueId) (device : Option Device) :
    Option (TypeMap × Bool) :=
  match s value with
  | JType.tensor tensor_type =>
      if tensor_type.device ≠ device then
        some (setType s value (JType.tensor (tensor_type.withDevice device)), true)
      else
        some (s, false)
  | JType.other => none

/-- The loop body of setReturnsToDevice, with the accumulated changed flag. -/
def setReturnsToDeviceLoop (s : TypeMap) (changed : Bool) (device : Option Device) :
    List ValueId → Option (TypeMap × Bool)
  | [] => some (s, changed)
  | out :: rest =>
      match (s out).castTensor with
      | none => setReturnsToDeviceLoop s changed device rest
      | some _ =>
          match setDeviceType s out device with
          | none => none
          | some (s1, c) => setReturnsToDeviceLoop s1 (changed || c) device rest

/-- setReturnsToDevice (lines 39-49): write the device to every tensor-typed
output of the node, OR-ing the per-output changed flags. -/
def setReturnsToDevice (s : TypeMap) (n : Node) (device : Option Device) :
    Option (TypeMap × Bool) :=
  setReturnsToDeviceLoop s false device n.outputs

/-- The test tensor_type->device() && tensor_type->device()->is_cpu() of
line 70: an unknown device is not cpu. -/
def optIsCpu : Option Device → Bool
  | some d => d.is_cpu
  | none => false

/-- Result of the operand scan: bail (irreconcilable conflict, early return
with nullopt) or the device candidate at the end of the loop. -/
inductive ScanResult where
  | bail
  | done (device : Option Device)
deriving DecidableEq

/-- The input loop of propWithNoDevice (lines 60-88), carrying its three loop
variables: the candidate device, seen_any_device, and only_seen_cpu_zerodim. -/
def scanInputs (s : TypeMap) :
    List ValueId → Option Device → Bool → Bool → ScanResult
  | [], device, _, _ => .done device
  | inp :: rest, device, seen_any_device, only_seen_cpu_zerodim =>
      match (s inp).castTensor with
      | none => scanInputs s rest device seen_any_device only_seen_cpu_zerodim
      | some tensor_type =>
          let is_zerodim : Bool := tensor_type.rank == some 0
          let is_cpu : Bool := optIsCpu tensor_type.device
          let is_cpu_zerodim : Bool := is_zerodim && is_cpu
          if seen_any_device then
            if device ≠ tensor_type.device ∧ is_cpu_zerodim = false then
              if only_seen_cpu_zerodim then
                scanInputs s rest tensor_type.device true false
              else
                ScanResult.bail
            else
              scanInputs s rest device seen_any_device only_seen_cpu_zerodim
          else
            scanInputs s rest tensor_type.device true is_cpu_zerodim

/-- propWithNoDevice (lines 51-90): scan the inputs for a common device and
write the result (nullopt on an irreconcilable conflict) to all tensor
outputs. -/
def propWithNoDevice (s : TypeMap) (n : Node) : Option (TypeMap × Bool) :=
  match scanInputs s n.inputs none false false with
  | .bail => setReturnsToDevice s n none
  | .done device => setReturnsToDevice s n device

/-- The argument loop of defaultDeviceProp (lines 100-120): find the first
argument whose declared type has the device type as a subtype and act on the
statically-known value of the corresponding input.  vector::at out of range
throws (none). -/
def scanArgs (g : StaticMap) (s : TypeMap) (n : Node) :
    List Argument → Nat → Option (TypeMap × Bool)
  | [], _ => propWithNoDevice s n
  | argument :: rest, i =>
      if ArgType.device.isSubtypeOf argument.type then
        match n.inputs.get? i with
        | none => none
        | some inp =>
            match g inp with
            | none => some (s, false)
            | some input_val =>
                if input_val.isNone then
                  scanArgs g s n rest (i + 1)
                else if input_val.isDevice = false then
                  some (s, false)
                else
                  setReturnsToDevice s n (some input_val.toDevice)
      else scanArgs g s n rest (i + 1)

/-- defaultDeviceProp (lines 92-122): no resolvable schema means no
propagation; otherwise scan the arguments, falling back to operand
resolution when no device-typed argument decides. -/
def defaultDeviceProp (g : StaticMap) (s : TypeMap) (n : Node) :
    Option (TypeMap × Bool) :=
  match n.schema with
  | none => some (s, false)
  | some schema => scanArgs g s n schema.arguments 0

/-- The per-position device computed by the branch-join merge
(the condition of lines 196-201): unknown on either side or disagreement
gives unknown, agreement keeps the shared device. -/
def mergeDevice (src1_type src2_type : TensorType) : Option Device :=
  if src1_type.device = none ∨ src2_type.device = none ∨
      ¬ (src1_type.device = src2_type.device) then
    none
  else src1_type.device

/-- The position loop of mergeAndApplyTensorProps (lines 189-202). -/
def mergeLoop (s : TypeMap) (changed : Bool) :
    List ValueId → List ValueId → List ValueId → Option (TypeMap × Bool)
  | v1 :: t1, v2 :: t2, d :: td =>
      match (s v1).castTensor, (s v2).castTensor with
      | some src1_type, some src2_type =>
          match setDeviceType s d (mergeDevice src1_type src2_type) with
          | none => none
          | some (s1, c) => mergeLoop s1 (changed || c) t1 t2 td
      | _, _ => mergeLoop s changed t1 t2 td
  | _, _, _ => some (s, changed)

/-- mergeAndApplyTensorProps (lines 181-204): the two TORCH_INTERNAL_ASSERTs
on the operand-list lengths are modelled as aborts, then the position loop
merges branch exit devices into the destination outputs. -/
def mergeAndApplyTensorProps (s : TypeMap)
    (src1 src2 dst : List ValueId) : Option (TypeMap × Bool) :=
  if src1.length = src2.length then
    if src1.length = dst.length then mergeLoop s false src1 src2 dst
    else none
  else none

/-- processAtenOps (lines 219-228): bail when maybeOperator fails, otherwise
apply defaultDeviceProp and accumulate its changed flag. -/
def processAtenOps (g : StaticMap) (s : TypeMap) (n : Node) :
    Option (TypeMap × Bool) :=
  if n.hasOp then defaultDeviceProp g s n else some (s, false)

mutual

/-- processNode (lines 143-179): dispatch on the node kind; If goes to the
join handler, loops and calls are skipped, nodes without tensor outputs are
skipped, constants and list primitives are skipped, aten ops are processed. -/
def processNode (g : StaticMap) (s : TypeMap) : Node → Option (TypeMap × Bool)
  | Node.mk kind inputs outputs schema hasOp blocks =>
      match kind with
      | .ifNode => processIf g s outputs blocks
      | .loopNode => some (s, false)
      | .callMethod => some (s, false)
      | .callFunction => some (s, false)
      | _ =>
          if (outputs.any fun v => (s v).isTensor) = false then some (s, false)
          else
            match kind with
            | .constant => some (s, false)
            | .listConstruct => some (s, false)
            | .listUnpack => some (s, false)
            | .aten =>
                processAtenOps g s (Node.mk kind inputs outputs schema hasOp blocks)
            | _ => some (s, false)

/-- processIf (lines 206-217): process the true block, then the false block,
then merge the branch outputs into the node outputs.  The changed flag
returned by mergeAndApplyTensorProps is discarded, exactly as in the source;
fewer than two blocks makes blocks.at throw (none). -/
def processIf (g : StaticMap) (s : TypeMap) (outputs : List ValueId) :
    List (List Node × List ValueId) → Option (TypeMap × Bool)
  | (true_nodes, true_outs) :: (false_nodes, false_outs) :: _ =>
      match processBlock g s true_nodes with
      | none => none
      | some (s1, c1) =>
          match processBlock g s1 false_nodes with
          | none => none
          | some (s2, c2) =>
              match mergeAndApplyTensorProps s2 true_outs false_outs outputs with
              | none => none
              | some (s3, _) => some (s3, c1 || c2)
  | _ => none

/-- processBlock (lines 136-141): process the block's nodes in order,
accumulating the changed flags. -/
def processBlock (g : StaticMap) (s : TypeMap) : List Node → Option (TypeMap × Bool)
  | [] => some (s, false)
  | n :: rest =>
      match processNode g s n with
      | none => none
      | some (s1, c1) =>
          match processBlock g s1 rest with
          | none => none
          | some (s2, c2) => some (s2, c1 || c2)

end

/-- DeviceTypePropagationPass::run (lines 130-133): process the top-level
block and return the accumulated changed flag (paired here with the final
type table). -/
def run (g : StaticMap) (s : TypeMap) (graph : Graph) : Option (TypeMap × Bool) :=
  processBlock g s graph.nodes

/-- The public entry point DeviceTypePropagation (lines 239-246). -/
def DeviceTypePropagation (g : StaticMap) (s : TypeMap) (graph : Graph) :
    Option (TypeMap × Bool) :=
  run g s graph

/-
Static footprints of the traversal, used to state the SSA-style
well-formedness of graphs: which value ids a node's processing may write,
and which value ids it mentions at all.
-/

mutual

/-- Over-approximation of the value ids whose type processing a node may
rewrite: its own outputs and everything written inside its blocks. -/
def nodeWrites : Node → List ValueId
  | Node.mk _ _ outputs _ _ blocks => outputs ++ blocksWrites blocks

def blocksWrites : List (List Node × List ValueId) → List ValueId
  | [] => []
  | (ns, _) :: bs => blockListWrites ns ++ blocksWrites bs

def blockListWrites : List Node → List ValueId
  | [] => []
  | n :: rest => nodeWrites n ++ blockListWrites rest

end

mutual

/-- All value ids a node mentions: inputs, outputs, and for each block its
nodes' value ids together with the block's output list. -/
def nodeVals : Node → List ValueId
  | Node.mk _ inputs outputs _ _ blocks => inputs ++ outputs ++ blocksVals blocks

def blocksVals : List (List Node × List ValueId) → List ValueId
  | [] => []
  | (ns, outs) :: bs => blockListVals ns ++ outs ++ blocksVals bs

def blockListVals : List Node → List ValueId
  | [] => []
  | n :: rest => nodeVals n ++ blockListVals rest

end

mutual

/-- SSA-style well-formedness of one node: a node does not consume its own
outputs, its outputs are distinct values, and its blocks are well formed. -/
def WFNode : Node → Prop
  | Node.mk _ inputs outputs _ _ blocks =>
      (∀ v ∈ inputs, v ∉ outputs) ∧ outputs.Nodup ∧ WFBlocks outputs blocks

/-- Well-formedness of an If node's blocks: both branches are well formed,
the false branch writes none of the values the true branch mentions, and the
node's own outputs are fresh (mentioned nowhere inside either branch and not
among either branch's exit values). -/
def WFBlocks : List ValueId → List (List Node × List ValueId) → Prop
  | outputs, (tns, touts) :: (fns, fouts) :: _ =>
      WFList tns ∧ WFList fns ∧
      (∀ v ∈ blockListVals tns, v ∉ blockListWrites fns) ∧
      (∀ v ∈ outputs,
        v ∉ blockListVals tns ∧ v ∉ blockListVals fns ∧ v ∉ touts ∧ v ∉ fouts)
  | _, _ => True

/-- Well-formedness of a node sequence: each node is well formed and no
later node writes a value an earlier node mentions. -/
def WFList : List Node → Prop
  | [] => True
  | n :: rest =>
      WFNode n ∧ WFList rest ∧ (∀ v ∈ nodeVals n, v ∉ blockListWrites rest)

end

/-- Well-formedness of a graph: its top-level node sequence is well formed. -/
def WFGraph (graph : Graph) : Prop := WFList graph.nodes

/-- Agreement of two type tables on a set of value ids. -/
def agreeOn (V : List ValueId) (t s : TypeMap) : Prop := ∀ v ∈ V, t v = s v

/- Basic facts about the type-table fragment. -/

theorem TensorType.withDevice_device (t : TensorType) (d : Option Device) :
    (t.withDevice d).device = d := rfl

theorem TensorType.withDevice_rank (t : TensorType) (d : Option Device) :
    (t.withDevice d).rank = t.rank := rfl

theorem TensorType.withDevice_withDevice (t : TensorType) (d e : Option Device) :
    (t.withDevice d).withDevice e = t.withDevice e := rfl

theorem TensorType.withDevice_self (t : TensorType) :
    t.withDevice t.device = t := rfl

theorem setType_same (s : TypeMap) (v : ValueId) (t : JType) :
    setType s v t v = t := by simp [setType]

theorem setType_other (s : TypeMap) (v : ValueId) (t : JType)
    {w : ValueId} (hw : w ≠ v) : setType s v t w = s w := by simp [setType, hw]

/- Lemmas about setDeviceType. -/

theorem setDeviceType_tensor_of_some {s : TypeMap} {v : ValueId}
    {d : Option Device} {p : TypeMap × Bool}
    (h : setDeviceType s v d = some p) : ∃ tt, s v = JType.tensor tt := by
  cases hv : s v with
  | tensor tt => exact ⟨tt, rfl⟩
  | other => simp [setDeviceType, hv] at h

theorem setDeviceType_isSome {s : TypeMap} {v : ValueId} {tt : TensorType}
    (hv : s v = JType.tensor tt) (d : Option Device) :
    (setDeviceType s v d).isSome := by
  simp only [setDeviceType, hv]
  split <;> simp

theorem setDeviceType_idem {s : TypeMap} {v : ValueId} {tt : TensorType}
    {d : Option Device} (hv : s v = JType.tensor tt) (hd : tt.device = d) :
    setDeviceType s v d = some (s, false) := by
  simp [setDeviceType, hv, hd]

theorem setDeviceType_write {s : TypeMap} {v : ValueId} {tt : TensorType}
    {d : Option Device} (hv : s v = JType.tensor tt) (hd : tt.device ≠ d) :
    setDeviceType s v d =
      some (setType s v (JType.tensor (tt.withDevice d)), true) := by
  simp [setDeviceType, hv, hd]

theorem setDeviceType_frame {s : TypeMap} {v : ValueId} {d : Option Device}
    {s1 : TypeMap} {c : Bool} (h : setDeviceType s v d = some (s1, c)) :
    ∀ w, w ≠ v → s1 w = s w := by
  intro w hw
  cases hv : s v with
  | tensor tt =>
      by_cases hd : tt.device = d
      · rw [setDeviceType_idem hv hd] at h
        obtain ⟨rfl, rfl⟩ := Prod.mk.injEq .. ▸ Option.some.inj h
        rfl
      · rw [setDeviceType_write hv hd] at h
        obtain ⟨h1, h2⟩ := Prod.mk.injEq .. ▸ Option.some.inj h
        subst h1
        exact setType_other s v _ hw
  | other => simp [setDeviceType, hv] at h

theorem setDeviceType_post {s : TypeMap} {v : ValueId} {tt : TensorType}
    {d : Option Device} {s1 : TypeMap} {c : Bool}
    (hv : s v = JType.tensor tt) (h : setDeviceType s v d = some (s1, c)) :
    s1 v = JType.tensor (tt.withDevice d) := by
  by_cases hd : tt.device = d
  · rw [setDeviceType_idem hv hd] at h
    obtain ⟨h1, h2⟩ := Prod.mk.injEq .. ▸ Option.some.inj h
    subst h1
    rw [hv, ← hd, TensorType.withDevice_self]
  · rw [setDeviceType_write hv hd] at h
    obtain ⟨h1, h2⟩ := Prod.mk.injEq .. ▸ Option.some.inj h
    subst h1
    exact setType_same ..

theorem setDeviceType_isTensor {s : TypeMap} {v : ValueId} {d : Option Device}
    {s1 : TypeMap} {c : Bool} (h : setDeviceType s v d = some (s1, c)) :
    ∀ w, (s1 w).isTensor = (s w).isTensor := by
  intro w
  by_cases hw : w = v
  · subst hw
    obtain ⟨tt, hv⟩ := setDeviceType_tensor_of_some h
    rw [setDeviceType_post hv h, hv]
    rfl
  · rw [setDeviceType_frame h w hw]

/- Lemmas about the setReturnsToDevice loop. -/

theorem srdLoop_isSome (s : TypeMap) (ch : Bool) (d : Option Device)
    (outs : List ValueId) : (setReturnsToDeviceLoop s ch d outs).isSome := by
  induction outs generalizing s ch with
  | nil => simp [setReturnsToDeviceLoop]
  | cons out rest ih =>
      simp only [setReturnsToDeviceLoop]
      cases hv : s out with
      | tensor tt =>
          simp only [hv, JType.castTensor]
          cases hsd : setDeviceType s out d with
          | none =>
              have := setDeviceType_isSome hv d
              rw [hsd] at this
              simp at this
          | some p =>
              cases p with
              | mk s1 c => exact ih s1 (ch || c)
      | other =>
          simp only [hv, JType.castTensor]
          exact ih s ch

theorem srdLoop_frame {outs : List ValueId} {s s1 : TypeMap} {ch c : Bool}
    {d : Option Device}
    (h : setReturnsToDeviceLoop s ch d outs = some (s1, c)) :
    ∀ v, v ∉ outs → s1 v = s v := by
  induction outs generalizing s ch with
  | nil =>
      intro v _
      simp only [setReturnsToDeviceLoop] at h
      obtain ⟨h1, h2⟩ := Prod.mk.injEq .. ▸ Option.some.inj h
      rw [h1]
  | cons out rest ih =>
      intro v hv
      have hvo : v ≠ out := fun he => hv (he ▸ List.mem_cons_self out rest)
      have hvr : v ∉ rest := fun he => hv (List.mem_cons_of_mem out he)
      simp only [setReturnsToDeviceLoop] at h
      cases ho : s out with
      | tensor tt =>
          simp only [ho, JType.castTensor] at h
          cases hsd : setDeviceType s out d with
          | none => rw [hsd] at h; cases h
          | some p =>
              cases p with
              | mk s2 c2 =>
                  rw [hsd] at h
                  rw [ih h v hvr, setDeviceType_frame hsd v hvo]
      | other =>
          simp only [ho, JType.castTensor] at h
          exact ih h v hvr

theorem srdLoop_isTensor {outs : List ValueId} {s s1 : TypeMap} {ch c : Bool}
    {d : Option Device}
    (h : setReturnsToDeviceLoop s ch d outs = some (s1, c)) :
    ∀ w, (s1 w).isTensor = (s w).isTensor := by
  induction outs generalizing s ch with
  | nil =>
      intro w
      simp only [setReturnsToDeviceLoop] at h
      obtain ⟨h1, h2⟩ := Prod.mk.injEq .. ▸ Option.some.inj h
      rw [h1]
  | cons out rest ih =>
      intro w
      simp only [setReturnsToDeviceLoop] at h
      cases ho : s out with
      | tensor tt =>
          simp only [ho, JType.castTensor] at h
          cases hsd : setDeviceType s out d with
          | none => rw [hsd] at h; cases h
          | some p =>
              cases p with
              | mk s2 c2 =>
                  rw [hsd] at h
                  rw [ih h w, setDeviceType_isTensor hsd w]
      | other =>
          simp only [ho, JType.castTensor] at h
          exact ih h w

theorem srdLoop_post {outs : List ValueId} {s s1 : TypeMap} {ch c : Bool}
    {d : Option Device}
    (h : setReturnsToDeviceLoop s ch d outs = some (s1, c)) :
    ∀ v ∈ outs, ∀ tt, s v = JType.tensor tt →
      s1 v = JType.tensor (tt.withDevice d) := by
  induction outs generalizing s ch with
  | nil => intro v hv; cases hv
  | cons out rest ih =>
      intro v hv tt hvt
      simp only [setReturnsToDeviceLoop] at h
      rcases List.mem_cons.mp hv with rfl | hvr
      · -- v is the head output
        simp only [hvt, JType.castTensor] at h
        cases hsd : setDeviceType s v d with
        | none => rw [hsd] at h; cases h
        | some p =>
            cases p with
            | mk s2 c2 =>
                rw [hsd] at h
                have hpost := setDeviceType_post hvt hsd
                by_cases hvrest : v ∈ rest
                · have := ih h v hvrest _ hpost
                  rw [this, TensorType.withDevice_withDevice]
                · rw [srdLoop_frame h v hvrest, hpost]
      · -- v occurs in the tail
        cases ho : s out with
        | tensor tt0 =>
            simp only [ho, JType.castTensor] at h
            cases hsd : setDeviceType s out d with
            | none => rw [hsd] at h; cases h
            | some p =>
                cases p with
                | mk s2 c2 =>
                    rw [hsd] at h
                    by_cases hvo : v = out
                    · subst hvo
                      have : tt0 = tt := by
                        rw [ho] at hvt; exact JType.tensor.inj hvt
                      subst this
                      have hpost := setDeviceType_post ho hsd
                      have := ih h v hvr _ hpost
                      rw [this, TensorType.withDevice_withDevice]
                    · have hs2 : s2 v = JType.tensor tt := by
                        rw [setDeviceType_frame hsd v hvo, hvt]
                      exact ih h v hvr _ hs2
        | other =>
            simp only [ho, JType.castTensor] at h
            exact ih h v hvr _ hvt

theorem srdLoop_stable {outs : List ValueId} {s : TypeMap} {d : Option Device}
    (hst : ∀ v ∈ outs, ∀ tt, s v = JType.tensor tt → tt.device = d) :
    ∀ ch, setReturnsToDeviceLoop s ch d outs = some (s, ch) := by
  induction outs with
  | nil => intro ch; rfl
  | cons out rest ih =>
      intro ch
      simp only [setReturnsToDeviceLoop]
      cases ho : s out with
      | tensor tt =>
          simp only [ho, JType.castTensor]
          have hd : tt.device = d := hst out (List.mem_cons_self ..) tt ho
          rw [setDeviceType_idem ho hd]
          have := ih (fun v hv => hst v (List.mem_cons_of_mem out hv)) ch
          simpa using this
      | other =>
          simp only [ho, JType.castTensor]
          exact ih (fun v hv => hst v (List.mem_cons_of_mem out hv)) ch

theorem srdLoop_mono {outs : List ValueId} {s s1 : TypeMap} {c : Bool}
    {d : Option Device}
    (h : setReturnsToDeviceLoop s true d outs = some (s1, c)) : c = true := by
  induction outs generalizing s with
  | nil =>
      simp only [setReturnsToDeviceLoop] at h
      exact ((Prod.mk.injEq .. ▸ Option.some.inj h).2).symm
  | cons out rest ih =>
      simp only [setReturnsToDeviceLoop] at h
      cases ho : s out with
      | tensor tt =>
          simp only [ho, JType.castTensor] at h
          cases hsd : setDeviceType s out d with
          | none => rw [hsd] at h; cases h
          | some p =>
              cases p with
              | mk s2 c2 =>
                  rw [hsd] at h
                  exact ih (by simpa using h)
      | other =>
          simp only [ho, JType.castTensor] at h
          exact ih h

theorem srdLoop_changed {outs : List ValueId} {s s1 : TypeMap} {ch c : Bool}
    {d : Option Device} {v : ValueId} {tt : TensorType}
    (hv : v ∈ outs) (hvt : s v = JType.tensor tt) (hne : tt.device ≠ d)
    (h : setReturnsToDeviceLoop s ch d outs = some (s1, c)) : c = true := by
  induction outs generalizing s ch with
  | nil => cases hv
  | cons out rest ih =>
      simp only [setReturnsToDeviceLoop] at h
      by_cases hvo : v = out
      · subst hvo
        simp only [hvt, JType.castTensor] at h
        rw [setDeviceType_write hvt hne] at h
        exact srdLoop_mono (by simpa using h)
      · rcases List.mem_cons.mp hv with heq | hvr
        · exact absurd heq hvo
        · cases ho : s out with
          | tensor tt0 =>
              simp only [ho, JType.castTensor] at h
              cases hsd : setDeviceType s out d with
              | none => rw [hsd] at h; cases h
              | some p =>
                  cases p with
                  | mk s2 c2 =>
                      rw [hsd] at h
                      have hs2 : s2 v = JType.tensor tt := by
                        rw [setDeviceType_frame hsd v hvo, hvt]
                      exact ih hvr hs2 h
          | other =>
              simp only [ho, JType.castTensor] at h
              exact ih hvr hvt h

/-- Re-running a finished setReturnsToDevice from any table that agrees with
its result on the written outputs is a no-op. -/
theorem srd_stable_from_run {outs : List ValueId} {s s1 t : TypeMap}
    {c : Bool} {d : Option Device}
    (h : setReturnsToDeviceLoop s false d outs = some (s1, c))
    (hag : ∀ v ∈ outs, t v = s1 v) :
    setReturnsToDeviceLoop t false d outs = some (t, false) := by
  have hst : ∀ v ∈ outs, ∀ tt, t v = JType.tensor tt → tt.device = d := by
    intro v hv tt htv
    have htv1 : t v = s1 v := hag v hv
    cases hsv : s v with
    | tensor tt0 =>
        have hp := srdLoop_post h v hv tt0 hsv
        rw [htv1, hp] at htv
        rw [← JType.tensor.inj htv]
        rfl
    | other =>
        have hT := srdLoop_isTensor h v
        rw [hsv, htv1.symm, htv] at hT
        simp [JType.isTensor] at hT
  exact srdLoop_stable hst false

/- Lemmas about the operand scan of propWithNoDevice. -/

theorem scanInputs_agree {inps : List ValueId} {t s : TypeMap}
    (hag : ∀ v ∈ inps, t v = s v) :
    ∀ dev seen z, scanInputs t inps dev seen z = scanInputs s inps dev seen z := by
  induction inps with
  | nil => intro dev seen z; rfl
  | cons inp rest ih =>
      intro dev seen z
      have h0 : t inp = s inp := hag inp (List.mem_cons_self ..)
      have hrest : ∀ v ∈ rest, t v = s v :=
        fun v hv => hag v (List.mem_cons_of_mem inp hv)
      simp only [scanInputs, h0]
      cases hc : (s inp).castTensor with
      | none => exact ih hrest dev seen z
      | some tt =>
          exact if_congr Iff.rfl
            (if_congr Iff.rfl
              (if_congr Iff.rfl (ih hrest _ _ _) rfl)
              (ih hrest _ _ _))
            (ih hrest _ _ _)

/- Lemmas about propWithNoDevice. -/

theorem propWithNoDevice_frame {s s1 : TypeMap} {n : Node} {c : Bool}
    (h : propWithNoDevice s n = some (s1, c)) :
    ∀ v, v ∉ n.outputs → s1 v = s v := by
  unfold propWithNoDevice at h
  cases hsc : scanInputs s n.inputs none false false with
  | bail =>
      rw [hsc] at h
      exact fun v hv => srdLoop_frame h v hv
  | done dev =>
      rw [hsc] at h
      exact fun v hv => srdLoop_frame h v hv

theorem propWithNoDevice_isTensor {s s1 : TypeMap} {n : Node} {c : Bool}
    (h : propWithNoDevice s n = some (s1, c)) :
    ∀ w, (s1 w).isTensor = (s w).isTensor := by
  unfold propWithNoDevice at h
  cases hsc : scanInputs s n.inputs none false false with
  | bail =>
      rw [hsc] at h
      exact srdLoop_isTensor h
  | done dev =>
      rw [hsc] at h
      exact srdLoop_isTensor h

theorem propWithNoDevice_isSome (s : TypeMap) (n : Node) :
    (propWithNoDevice s n).isSome := by
  unfold propWithNoDevice
  cases scanInputs s n.inputs none false false with
  | bail => exact srdLoop_isSome ..
  | done dev => exact srdLoop_isSome ..

theorem propWithNoDevice_stable {s s1 t : TypeMap} {n : Node} {c : Bool}
    (hio : ∀ v ∈ n.inputs, v ∉ n.outputs)
    (h : propWithNoDevice s n = some (s1, c))
    (hag : agreeOn (n.inputs ++ n.outputs) t s1) :
    propWithNoDevice t n = some (t, false) := by
  have hin : ∀ v ∈ n.inputs, t v = s v := by
    intro v hv
    rw [hag v (List.mem_append_left _ hv)]
    exact propWithNoDevice_frame h v (hio v hv)
  have hout : ∀ v ∈ n.outputs, t v = s1 v :=
    fun v hv => hag v (List.mem_append_right _ hv)
  unfold propWithNoDevice at h ⊢
  rw [scanInputs_agree hin none false false]
  cases hsc : scanInputs s n.inputs none false false with
  | bail =>
      rw [hsc] at h
      exact srd_stable_from_run h hout
  | done dev =>
      rw [hsc] at h
      exact srd_stable_from_run h hout

/- Lemmas about the argument scan of defaultDeviceProp. -/

theorem scanArgs_frame {g : StaticMap} {n : Node} :
    ∀ {args : List Argument} {i : Nat} {s s1 : TypeMap} {c : Bool},
      scanArgs g s n args i = some (s1, c) →
      ∀ v, v ∉ n.outputs → s1 v = s v := by
  intro args
  induction args with
  | nil =>
      intro i s s1 c h v hv
      exact propWithNoDevice_frame h v hv
  | cons argument rest ih =>
      intro i s s1 c h v hv
      simp only [scanArgs] at h
      by_cases hsub : ArgType.device.isSubtypeOf argument.type = true
      · rw [if_pos hsub] at h
        cases hg : n.inputs.get? i with
        | none => simp only [hg] at h; cases h
        | some inp =>
            simp only [hg] at h
            cases hgv : g inp with
            | none =>
                simp only [hgv] at h
                obtain ⟨h1, h2⟩ := Prod.mk.injEq .. ▸ Option.some.inj h
                rw [← h1]
            | some input_val =>
                simp only [hgv] at h
                by_cases hn : input_val.isNone = true
                · rw [if_pos hn] at h
                  exact ih h v hv
                · rw [if_neg hn] at h
                  by_cases hd : input_val.isDevice = false
                  · rw [if_pos hd] at h
                    obtain ⟨h1, h2⟩ := Prod.mk.injEq .. ▸ Option.some.inj h
                    rw [← h1]
                  · rw [if_neg hd] at h
                    exact srdLoop_frame h v hv
      · rw [if_neg hsub] at h
        exact ih h v hv

theorem scanArgs_isTensor {g : StaticMap} {n : Node} :
    ∀ {args : List Argument} {i : Nat} {s s1 : TypeMap} {c : Bool},
      scanArgs g s n args i = some (s1, c) →
      ∀ w, (s1 w).isTensor = (s w).isTensor := by
  intro args
  induction args with
  | nil =>
      intro i s s1 c h w
      exact propWithNoDevice_isTensor h w
  | cons argument rest ih =>
      intro i s s1 c h w
      simp only [scanArgs] at h
      by_cases hsub : ArgType.device.isSubtypeOf argument.type = true
      · rw [if_pos hsub] at h
        cases hg : n.inputs.get? i with
        | none => simp only [hg] at h; cases h
        | some inp =>
            simp only [hg] at h
            cases hgv : g inp with
            | none =>
                simp only [hgv] at h
                obtain ⟨h1, h2⟩ := Prod.mk.injEq .. ▸ Option.some.inj h
                rw [← h1]
            | some input_val =>
                simp only [hgv] at h
                by_cases hn : input_val.isNone = true
                · rw [if_pos hn] at h
                  exact ih h w
                · rw [if_neg hn] at h
                  by_cases hd : input_val.isDevice = false
                  · rw [if_pos hd] at h
                    obtain ⟨h1, h2⟩ := Prod.mk.injEq .. ▸ Option.some.inj h
                    rw [← h1]
                  · rw [if_neg hd] at h
                    exact srdLoop_isTensor h w
      · rw [if_neg hsub] at h
        exact ih h w

theorem scanArgs_stable {g : StaticMap} {n : Node}
    (hio : ∀ v ∈ n.inputs, v ∉ n.outputs) :
    ∀ {args : List Argument} {i : Nat} {s s1 t : TypeMap} {c : Bool},
      scanArgs g s n args i = some (s1, c) →
      agreeOn (n.inputs ++ n.outputs) t s1 →
      scanArgs g t n args i = some (t, false) := by
  intro args
  induction args with
  | nil =>
      intro i s s1 t c h hag
      exact propWithNoDevice_stable hio h hag
  | cons argument rest ih =>
      intro i s s1 t c h hag
      simp only [scanArgs] at h ⊢
      by_cases hsub : ArgType.device.isSubtypeOf argument.type = true
      · rw [if_pos hsub] at h ⊢
        cases hg : n.inputs.get? i with
        | none => simp only [hg] at h; cases h
        | some inp =>
            simp only [hg] at h ⊢
            cases hgv : g inp with
            | none => rfl
            | some input_val =>
                simp only [hgv] at h ⊢
                by_cases hn : input_val.isNone = true
                · rw [if_pos hn] at h ⊢
                  exact ih h hag
                · rw [if_neg hn] at h ⊢
                  by_cases hd : input_val.isDevice = false
                  · rw [if_pos hd]
                  · rw [if_neg hd] at h ⊢
                    have hout : ∀ v ∈ n.outputs, t v = s1 v :=
                      fun v hv => hag v (List.mem_append_right _ hv)
                    exact srd_stable_from_run h hout
      · rw [if_neg hsub] at h ⊢
        exact ih h hag

/- Lemmas about defaultDeviceProp and processAtenOps. -/

theorem defaultDeviceProp_frame {g : StaticMap} {n : Node} {s s1 : TypeMap}
    {c : Bool} (h : defaultDeviceProp g s n = some (s1, c)) :
    ∀ v, v ∉ n.outputs → s1 v = s v := by
  unfold defaultDeviceProp at h
  cases hs : n.schema with
  | none =>
      rw [hs] at h
      obtain ⟨h1, h2⟩ := Prod.mk.injEq .. ▸ Option.some.inj h
      intro v _
      rw [← h1]
  | some schema =>
      rw [hs] at h
      exact scanArgs_frame h

theorem defaultDeviceProp_isTensor {g : StaticMap} {n : Node} {s s1 : TypeMap}
    {c : Bool} (h : defaultDeviceProp g s n = some (s1, c)) :
    ∀ w, (s1 w).isTensor = (s w).isTensor := by
  unfold defaultDeviceProp at h
  cases hs : n.schema with
  | none =>
      rw [hs] at h
      obtain ⟨h1, h2⟩ := Prod.mk.injEq .. ▸ Option.some.inj h
      intro w
      rw [← h1]
  | some schema =>
      rw [hs] at h
      exact scanArgs_isTensor h

theorem defaultDeviceProp_stable {g : StaticMap} {n : Node} {s s1 t : TypeMap}
    {c : Bool} (hio : ∀ v ∈ n.inputs, v ∉ n.outputs)
    (h : defaultDeviceProp g s n = some (s1, c))
    (hag : agreeOn (n.inputs ++ n.outputs) t s1) :
    defaultDeviceProp g t n = some (t, false) := by
  unfold defaultDeviceProp at h ⊢
  cases hs : n.schema with
  | none => rfl
  | some schema =>
      rw [hs] at h
      exact scanArgs_stable hio h hag

theorem processAtenOps_frame {g : StaticMap} {n : Node} {s s1 : TypeMap}
    {c : Bool} (h : processAtenOps g s n = some (s1, c)) :
    ∀ v, v ∉ n.outputs → s1 v = s v := by
  unfold processAtenOps at h
  by_cases hop : n.hasOp = true
  · rw [if_pos hop] at h
    exact defaultDeviceProp_frame h
  · rw [if_neg hop] at h
    obtain ⟨h1, h2⟩ := Prod.mk.injEq .. ▸ Option.some.inj h
    intro v _
    rw [← h1]

theorem processAtenOps_isTensor {g : StaticMap} {n : Node} {s s1 : TypeMap}
    {c : Bool} (h : processAtenOps g s n = some (s1, c)) :
    ∀ w, (s1 w).isTensor = (s w).isTensor := by
  unfold processAtenOps at h
  by_cases hop : n.hasOp = true
  · rw [if_pos hop] at h
    exact defaultDeviceProp_isTensor h
  · rw [if_neg hop] at h
    obtain ⟨h1, h2⟩ := Prod.mk.injEq .. ▸ Option.some.inj h
    intro w
    rw [← h1]

theorem processAtenOps_stable {g : StaticMap} {n : Node} {s s1 t : TypeMap}
    {c : Bool} (hio : ∀ v ∈ n.inputs, v ∉ n.outputs)
    (h : processAtenOps g s n = some (s1, c))
    (hag : agreeOn (n.inputs ++ n.outputs) t s1) :
    processAtenOps g t n = some (t, false) := by
  unfold processAtenOps at h ⊢
  by_cases hop : n.hasOp = true
  · rw [if_pos hop] at h ⊢
    exact defaultDeviceProp_stable hio h hag
  · rw [if_neg hop]

/- Lemmas about the branch-join merge loop. -/

theorem mergeLoop_frame {v1s : List ValueId} :
    ∀ {v2s ds : List ValueId} {s s1 : TypeMap} {ch c : Bool},
      mergeLoop s ch v1s v2s ds = some (s1, c) → ∀ v, v ∉ ds → s1 v = s v := by
  induction v1s with
  | nil =>
      intro v2s ds s s1 ch c h v hv
      obtain ⟨h1, h2⟩ := Prod.mk.injEq .. ▸ Option.some.inj h
      rw [← h1]
  | cons v1 t1 ih =>
      intro v2s ds s s1 ch c h v hv
      cases v2s with
      | nil =>
          obtain ⟨h1, h2⟩ := Prod.mk.injEq .. ▸ Option.some.inj h
          rw [← h1]
      | cons v2 t2 =>
          cases ds with
          | nil =>
              obtain ⟨h1, h2⟩ := Prod.mk.injEq .. ▸ Option.some.inj h
              rw [← h1]
          | cons d td =>
              have hvd : v ≠ d := fun he => hv (he ▸ List.mem_cons_self d td)
              have hvt : v ∉ td := fun he => hv (List.mem_cons_of_mem d he)
              simp only [mergeLoop] at h
              cases hc1 : (s v1).castTensor with
              | none =>
                  simp only [hc1] at h
                  exact ih h v hvt
              | some tt1 =>
                  cases hc2 : (s v2).castTensor with
                  | none =>
                      simp only [hc1, hc2] at h
                      exact ih h v hvt
                  | some tt2 =>
                      simp only [hc1, hc2] at h
                      cases hsd : setDeviceType s d (mergeDevice tt1 tt2) with
                      | none => simp only [hsd] at h; cases h
                      | some p =>
                          cases p with
                          | mk s2 c2 =>
                              simp only [hsd] at h
                              rw [ih h v hvt, setDeviceType_frame hsd v hvd]

theorem mergeLoop_isTensor {v1s : List ValueId} :
    ∀ {v2s ds : List ValueId} {s s1 : TypeMap} {ch c : Bool},
      mergeLoop s ch v1s v2s ds = some (s1, c) →
      ∀ w, (s1 w).isTensor = (s w).isTensor := by
  induction v1s with
  | nil =>
      intro v2s ds s s1 ch c h w
      obtain ⟨h1, h2⟩ := Prod.mk.injEq .. ▸ Option.some.inj h
      rw [← h1]
  | cons v1 t1 ih =>
      intro v2s ds s s1 ch c h w
      cases v2s with
      | nil =>
          obtain ⟨h1, h2⟩ := Prod.mk.injEq .. ▸ Option.some.inj h
          rw [← h1]
      | cons v2 t2 =>
          cases ds with
          | nil =>
              obtain ⟨h1, h2⟩ := Prod.mk.injEq .. ▸ Option.some.inj h
              rw [← h1]
          | cons d td =>
              simp only [mergeLoop] at h
              cases hc1 : (s v1).castTensor with
              | none =>
                  simp only [hc1] at h
                  exact ih h w
              | some tt1 =>
                  cases hc2 : (s v2).castTensor with
                  | none =>
                      simp only [hc1, hc2] at h
                      exact ih h w
                  | some tt2 =>
                      simp only [hc1, hc2] at h
                      cases hsd : setDeviceType s d (mergeDevice tt1 tt2) with
                      | none => simp only [hsd] at h; cases h
                      | some p =>
                          cases p with
                          | mk s2 c2 =>
                              simp only [hsd] at h
                              rw [ih h w, setDeviceType_isTensor hsd w]

theorem mergeLoop_post {v1s : List ValueId} :
    ∀ {v2s ds : List ValueId} {s s1 : TypeMap} {ch c : Bool},
      mergeLoop s ch v1s v2s ds = some (s1, c) →
      ds.Nodup → (∀ d ∈ ds, d ∉ v1s ∧ d ∉ v2s) →
      ∀ i v1 v2 d tt1 tt2,
        v1s.get? i = some v1 → v2s.get? i = some v2 → ds.get? i = some d →
        s v1 = JType.tensor tt1 → s v2 = JType.tensor tt2 →
        ∃ ttd, s d = JType.tensor ttd ∧
          s1 d = JType.tensor (ttd.withDevice (mergeDevice tt1 tt2)) := by
  induction v1s with
  | nil =>
      intro v2s ds s s1 ch c h hnd hdisj i v1 v2 d tt1 tt2 h1 h2 h3 ht1 ht2
      simp at h1
  | cons va t1 ih =>
      intro v2s ds s s1 ch c h hnd hdisj i v1 v2 d tt1 tt2 h1 h2 h3 ht1 ht2
      cases v2s with
      | nil => simp at h2
      | cons vb t2 =>
          cases ds with
          | nil => simp at h3
          | cons d0 td =>
              have hnd0 : d0 ∉ td := (List.nodup_cons.mp hnd).1
              have hndt : td.Nodup := (List.nodup_cons.mp hnd).2
              have hdisj0 := hdisj d0 (List.mem_cons_self ..)
              have hdisjt : ∀ x ∈ td, x ∉ t1 ∧ x ∉ t2 := by
                intro x hx
                have := hdisj x (List.mem_cons_of_mem d0 hx)
                exact ⟨fun hm => this.1 (List.mem_cons_of_mem va hm),
                  fun hm => this.2 (List.mem_cons_of_mem vb hm)⟩
              simp only [mergeLoop] at h
              cases i with
              | zero =>
                  simp only [List.get?_cons_zero, Option.some.injEq] at h1 h2 h3
                  have hta : s va = JType.tensor tt1 := by rw [h1, ht1]
                  have htb : s vb = JType.tensor tt2 := by rw [h2, ht2]
                  have hc1 : (s va).castTensor = some tt1 := by rw [hta]; rfl
                  have hc2 : (s vb).castTensor = some tt2 := by rw [htb]; rfl
                  simp only [hc1, hc2] at h
                  rw [← h3]
                  cases hsd : setDeviceType s d0 (mergeDevice tt1 tt2) with
                  | none => simp only [hsd] at h; cases h
                  | some p =>
                      cases p with
                      | mk s2 c2 =>
                          simp only [hsd] at h
                          obtain ⟨ttd, htd⟩ := setDeviceType_tensor_of_some hsd
                          refine ⟨ttd, htd, ?_⟩
                          rw [mergeLoop_frame h d0 hnd0]
                          exact setDeviceType_post htd hsd
              | succ j =>
                  simp only [List.get?_cons_succ] at h1 h2 h3
                  have hv1t : v1 ∈ t1 := List.get?_mem h1
                  have hv2t : v2 ∈ t2 := List.get?_mem h2
                  have hdt : d ∈ td := List.get?_mem h3
                  have hd0v1 : d0 ≠ v1 :=
                    fun he => hdisj0.1 (he ▸ List.mem_cons_of_mem va hv1t)
                  have hd0v2 : d0 ≠ v2 :=
                    fun he => hdisj0.2 (he ▸ List.mem_cons_of_mem vb hv2t)
                  have hdd0 : d ≠ d0 := fun he => hnd0 (he ▸ hdt)
                  cases hc1 : (s va).castTensor with
                  | none =>
                      simp only [hc1] at h
                      exact ih h hndt hdisjt j v1 v2 d tt1 tt2 h1 h2 h3 ht1 ht2
                  | some tta =>
                      cases hc2 : (s vb).castTensor with
                      | none =>
                          simp only [hc1, hc2] at h
                          exact ih h hndt hdisjt j v1 v2 d tt1 tt2 h1 h2 h3 ht1 ht2
                      | some ttb =>
                          simp only [hc1, hc2] at h
                          cases hsd : setDeviceType s d0 (mergeDevice tta ttb) with
                          | none => simp only [hsd] at h; cases h
                          | some p =>
                              cases p with
                              | mk s2 c2 =>
                                  simp only [hsd] at h
                                  have hs2v1 : s2 v1 = JType.tensor tt1 := by
                                    rw [setDeviceType_frame hsd v1
                                      (fun he => hd0v1 he.symm), ht1]
                                  have hs2v2 : s2 v2 = JType.tensor tt2 := by
                                    rw [setDeviceType_frame hsd v2
                                      (fun he => hd0v2 he.symm), ht2]
                                  obtain ⟨ttd, htd, hfin⟩ :=
                                    ih h hndt hdisjt j v1 v2 d tt1 tt2 h1 h2 h3
                                      hs2v1 hs2v2
                                  refine ⟨ttd, ?_, hfin⟩
                                  rw [← setDeviceType_frame hsd d hdd0, htd]

theorem mergeLoop_stable {v1s : List ValueId} :
    ∀ {v2s ds : List ValueId} {s : TypeMap},
      (∀ i v1 v2 d tt1 tt2,
        v1s.get? i = some v1 → v2s.get? i = some v2 → ds.get? i = some d →
        s v1 = JType.tensor tt1 → s v2 = JType.tensor tt2 →
        ∃ ttd, s d = JType.tensor ttd ∧ ttd.device = mergeDevice tt1 tt2) →
      ∀ ch, mergeLoop s ch v1s v2s ds = some (s, ch) := by
  induction v1s with
  | nil => intro v2s ds s _ ch; rfl
  | cons va t1 ih =>
      intro v2s ds s hst ch
      cases v2s with
      | nil => rfl
      | cons vb t2 =>
          cases ds with
          | nil => rfl
          | cons d0 td =>
              have hstt : ∀ i v1 v2 d tt1 tt2,
                  t1.get? i = some v1 → t2.get? i = some v2 → td.get? i = some d →
                  s v1 = JType.tensor tt1 → s v2 = JType.tensor tt2 →
                  ∃ ttd, s d = JType.tensor ttd ∧
                    ttd.device = mergeDevice tt1 tt2 := by
                intro i v1 v2 d tt1 tt2 h1 h2 h3 ht1 ht2
                exact hst (i + 1) v1 v2 d tt1 tt2
                  (by simpa using h1) (by simpa using h2) (by simpa using h3) ht1 ht2
              simp only [mergeLoop]
              cases hc1 : (s va).castTensor with
              | none => exact ih hstt ch
              | some tta =>
                  cases hc2 : (s vb).castTensor with
                  | none => exact ih hstt ch
                  | some ttb =>
                      have hta : s va = JType.tensor tta := by
                        cases hva : s va with
                        | tensor x =>
                            rw [hva] at hc1
                            rw [Option.some.inj hc1]
                        | other => rw [hva] at hc1; cases hc1
                      have htb : s vb = JType.tensor ttb := by
                        cases hvb : s vb with
                        | tensor x =>
                            rw [hvb] at hc2
                            rw [Option.some.inj hc2]
                        | other => rw [hvb] at hc2; cases hc2
                      obtain ⟨ttd, htd, hdev⟩ := hst 0 va vb d0 tta ttb
                        (by simp) (by simp) (by simp) hta htb
                      simp only [setDeviceType_idem htd hdev]
                      simpa using ih hstt (ch || false)

theorem mergeLoop_total {v1s : List ValueId} :
    ∀ {v2s ds : List ValueId} {s : TypeMap} {ch : Bool},
      (∀ i v1 v2 d, v1s.get? i = some v1 → v2s.get? i = some v2 →
        ds.get? i = some d →
        (s v1).isTensor = true → (s v2).isTensor = true →
        (s d).isTensor = true) →
      (mergeLoop s ch v1s v2s ds).isSome := by
  induction v1s with
  | nil => intro v2s ds s ch _; rfl
  | cons va t1 ih =>
      intro v2s ds s ch hst
      cases v2s with
      | nil => rfl
      | cons vb t2 =>
          cases ds with
          | nil => rfl
          | cons d0 td =>
              simp only [mergeLoop]
              cases hc1 : (s va).castTensor with
              | none =>
                  exact ih fun i v1 v2 d h1 h2 h3 => hst (i + 1) v1 v2 d
                    (by simpa using h1) (by simpa using h2) (by simpa using h3)
              | some tta =>
                  cases hc2 : (s vb).castTensor with
                  | none =>
                      exact ih fun i v1 v2 d h1 h2 h3 => hst (i + 1) v1 v2 d
                        (by simpa using h1) (by simpa using h2) (by simpa using h3)
                  | some ttb =>
                      have hta : (s va).isTensor = true := by
                        cases hva : s va with
                        | tensor x => rfl
                        | other => rw [hva] at hc1; cases hc1
                      have htb : (s vb).isTensor = true := by
                        cases hvb : s vb with
                        | tensor x => rfl
                        | other => rw [hvb] at hc2; cases hc2
                      have htd := hst 0 va vb d0 (by simp) (by simp) (by simp)
                        hta htb
                      cases hvd : s d0 with
                      | other => rw [hvd] at htd; cases htd
                      | tensor ttd =>
                          cases hsd : setDeviceType s d0 (mergeDevice tta ttb) with
                          | none =>
                              have hsm := setDeviceType_isSome hvd (mergeDevice tta ttb)
                              rw [hsd] at hsm
                              simp at hsm
                          | some p =>
                              cases p with
                              | mk s2 c2 =>
                                  simp only [hsd]
                                  apply ih
                                  intro i v1 v2 d h1 h2 h3 hT1 hT2
                                  rw [setDeviceType_isTensor hsd] at hT1 hT2 ⊢
                                  exact hst (i + 1) v1 v2 d
                                    (by simpa using h1) (by simpa using h2)
                                    (by simpa using h3) hT1 hT2

theorem mergeLoop_abort {v1s : List ValueId} :
    ∀ {v2s ds : List ValueId} {s : TypeMap} {ch : Bool} {i : Nat}
      {v1 v2 d : ValueId},
      v1s.get? i = some v1 → v2s.get? i = some v2 → ds.get? i = some d →
      (s v1).isTensor = true → (s v2).isTensor = true →
      (s d).isTensor = false →
      mergeLoop s ch v1s v2s ds = none := by
  induction v1s with
  | nil => intro v2s ds s ch i v1 v2 d h1 h2 h3 hT1 hT2 hTd; simp at h1
  | cons va t1 ih =>
      intro v2s ds s ch i v1 v2 d h1 h2 h3 hT1 hT2 hTd
      cases v2s with
      | nil => simp at h2
      | cons vb t2 =>
          cases ds with
          | nil => simp at h3
          | cons d0 td =>
              simp only [mergeLoop]
              cases i with
              | zero =>
                  simp only [List.get?_cons_zero, Option.some.injEq] at h1 h2 h3
                  rw [← h1] at hT1
                  rw [← h2] at hT2
                  rw [← h3] at hTd
                  cases hta : s va with
                  | other => rw [hta] at hT1; cases hT1
                  | tensor tta =>
                      cases htb : s vb with
                      | other => rw [htb] at hT2; cases hT2
                      | tensor ttb =>
                          have hc1 : (s va).castTensor = some tta := by
                            rw [hta]; rfl
                          have hc2 : (s vb).castTensor = some ttb := by
                            rw [htb]; rfl
                          cases htd : s d0 with
                          | tensor x => rw [htd] at hTd; cases hTd
                          | other =>
                              have hset : setDeviceType s d0
                                  (mergeDevice tta ttb) = none := by
                                simp [setDeviceType, htd]
                              simp [JType.castTensor, hset]
              | succ j =>
                  simp only [List.get?_cons_succ] at h1 h2 h3
                  cases hc1 : (s va).castTensor with
                  | none => exact ih h1 h2 h3 hT1 hT2 hTd
                  | some tta =>
                      cases hc2 : (s vb).castTensor with
                      | none => exact ih h1 h2 h3 hT1 hT2 hTd
                      | some ttb =>
                          cases hsd : setDeviceType s d0 (mergeDevice tta ttb) with
                          | none => simp only [hsd]
                          | some p =>
                              cases p with
                              | mk s2 c2 =>
                                  simp only [hsd]
                                  apply ih h1 h2 h3
                                  · rw [setDeviceType_isTensor hsd]; exact hT1
                                  · rw [setDeviceType_isTensor hsd]; exact hT2
                                  · rw [setDeviceType_isTensor hsd]; exact hTd

/- Lemmas about mergeAndApplyTensorProps. -/

theorem mergeAndApply_elim {s s1 : TypeMap} {src1 src2 dst : List ValueId}
    {c : Bool} (h : mergeAndApplyTensorProps s src1 src2 dst = some (s1, c)) :
    src1.length = src2.length ∧ src1.length = dst.length ∧
      mergeLoop s false src1 src2 dst = some (s1, c) := by
  unfold mergeAndApplyTensorProps at h
  by_cases h1 : src1.length = src2.length
  · rw [if_pos h1] at h
    by_cases h2 : src1.length = dst.length
    · rw [if_pos h2] at h
      exact ⟨h1, h2, h⟩
    · rw [if_neg h2] at h
      cases h
  · rw [if_neg h1] at h
    cases h

theorem mergeAndApply_frame {s s1 : TypeMap} {src1 src2 dst : List ValueId}
    {c : Bool} (h : mergeAndApplyTensorProps s src1 src2 dst = some (s1, c)) :
    ∀ v, v ∉ dst → s1 v = s v :=
  mergeLoop_frame (mergeAndApply_elim h).2.2

/-- Congruence of the tensor-output test under pointwise tensor-ness
agreement. -/
theorem any_isTensor_congr {outs : List ValueId} {t s : TypeMap}
    (h : ∀ v ∈ outs, (t v).isTensor = (s v).isTensor) :
    (outs.any fun v => (t v).isTensor) = (outs.any fun v => (s v).isTensor) := by
  induction outs with
  | nil => rfl
  | cons out rest ih =>
      simp only [List.any_cons]
      rw [h out (List.mem_cons_self ..),
        ih fun v hv => h v (List.mem_cons_of_mem out hv)]

/- The traversal writes only into the node footprints (frame property),
proved by strong induction on the size of the processed structure. -/

theorem processFrameAux : ∀ k : Nat,
    (∀ n : Node, sizeOf n ≤ k → ∀ g s s1 c,
      processNode g s n = some (s1, c) →
      ∀ v, v ∉ nodeWrites n → s1 v = s v) ∧
    (∀ ns : List Node, sizeOf ns ≤ k → ∀ g s s1 c,
      processBlock g s ns = some (s1, c) →
      ∀ v, v ∉ blockListWrites ns → s1 v = s v) := by
  intro k
  induction k using Nat.strong_induction_on with
  | _ k IH =>
      constructor
      · -- node part
        intro n hk g s s1 c h v hv
        cases n with
        | mk kind inputs outputs schema hasOp blocks =>
            have hvo : v ∉ outputs := by
              intro hvo
              exact hv (by
                simp only [nodeWrites, List.mem_append]
                exact Or.inl hvo)
            cases kind with
            | loopNode =>
                simp only [processNode] at h
                obtain ⟨h1, h2⟩ := Prod.mk.injEq .. ▸ Option.some.inj h
                rw [← h1]
            | callMethod =>
                simp only [processNode] at h
                obtain ⟨h1, h2⟩ := Prod.mk.injEq .. ▸ Option.some.inj h
                rw [← h1]
            | callFunction =>
                simp only [processNode] at h
                obtain ⟨h1, h2⟩ := Prod.mk.injEq .. ▸ Option.some.inj h
                rw [← h1]
            | constant =>
                simp only [processNode] at h
                by_cases hto : (outputs.any fun w => (s w).isTensor) = false
                · rw [if_pos hto] at h
                  obtain ⟨h1, h2⟩ := Prod.mk.injEq .. ▸ Option.some.inj h
                  rw [← h1]
                · rw [if_neg hto] at h
                  obtain ⟨h1, h2⟩ := Prod.mk.injEq .. ▸ Option.some.inj h
                  rw [← h1]
            | listConstruct =>
                simp only [processNode] at h
                by_cases hto : (outputs.any fun w => (s w).isTensor) = false
                · rw [if_pos hto] at h
                  obtain ⟨h1, h2⟩ := Prod.mk.injEq .. ▸ Option.some.inj h
                  rw [← h1]
                · rw [if_neg hto] at h
                  obtain ⟨h1, h2⟩ := Prod.mk.injEq .. ▸ Option.some.inj h
                  rw [← h1]
            | listUnpack =>
                simp only [processNode] at h
                by_cases hto : (outputs.any fun w => (s w).isTensor) = false
                · rw [if_pos hto] at h
                  obtain ⟨h1, h2⟩ := Prod.mk.injEq .. ▸ Option.some.inj h
                  rw [← h1]
                · rw [if_neg hto] at h
                  obtain ⟨h1, h2⟩ := Prod.mk.injEq .. ▸ Option.some.inj h
                  rw [← h1]
            | otherKind =>
                simp only [processNode] at h
                by_cases hto : (outputs.any fun w => (s w).isTensor) = false
                · rw [if_pos hto] at h
                  obtain ⟨h1, h2⟩ := Prod.mk.injEq .. ▸ Option.some.inj h
                  rw [← h1]
                · rw [if_neg hto] at h
                  obtain ⟨h1, h2⟩ := Prod.mk.injEq .. ▸ Option.some.inj h
                  rw [← h1]
            | aten =>
                simp only [processNode] at h
                by_cases hto : (outputs.any fun w => (s w).isTensor) = false
                · rw [if_pos hto] at h
                  obtain ⟨h1, h2⟩ := Prod.mk.injEq .. ▸ Option.some.inj h
                  rw [← h1]
                · rw [if_neg hto] at h
                  exact processAtenOps_frame h v hvo
            | ifNode =>
                simp only [processNode] at h
                cases blocks with
                | nil => simp only [processIf] at h; cases h
                | cons b0 bs =>
                    cases b0 with
                    | mk tns touts =>
                        cases bs with
                        | nil => simp only [processIf] at h; cases h
                        | cons b1 bs2 =>
                            cases b1 with
                            | mk fns fouts =>
                                simp only [nodeWrites, blocksWrites,
                                  List.mem_append, not_or] at hv
                                obtain ⟨hvO, hvT, hvF, hvB⟩ := hv
                                simp only [processIf] at h
                                cases h1 : processBlock g s tns with
                                | none => simp only [h1] at h; cases h
                                | some p1 =>
                                    cases p1 with
                                    | mk sa c1 =>
                                        simp only [h1] at h
                                        cases h2 : processBlock g sa fns with
                                        | none => simp only [h2] at h; cases h
                                        | some p2 =>
                                            cases p2 with
                                            | mk sb c2 =>
                                                simp only [h2] at h
                                                cases h3 : mergeAndApplyTensorProps
                                                    sb touts fouts outputs with
                                                | none =>
                                                    simp only [h3] at h; cases h
                                                | some p3 =>
                                                    cases p3 with
                                                    | mk sm cm =>
                                                        simp only [h3] at h
                                                        obtain ⟨hs1, hcc⟩ :=
                                                          Prod.mk.injEq .. ▸
                                                            Option.some.inj h
                                                        have hsz :
                                                            sizeOf tns +
                                                              sizeOf fns < k := by
                                                          simp only
                                                            [Node.mk.sizeOf_spec,
                                                            List.cons.sizeOf_spec,
                                                            Prod.mk.sizeOf_spec]
                                                            at hk
                                                          omega
                                                        have IHP :=
                                                          IH (k - 1) (by omega)
                                                        rw [← hs1]
                                                        rw [mergeAndApply_frame
                                                          h3 v hvO]
                                                        rw [IHP.2 fns (by omega)
                                                          g sa sb c2 h2 v hvF]
                                                        exact IHP.2 tns (by omega)
                                                          g s sa c1 h1 v hvT
      · -- node-list part
        intro ns hk g s s1 c h v hv
        cases ns with
        | nil =>
            simp only [processBlock] at h
            obtain ⟨h1, h2⟩ := Prod.mk.injEq .. ▸ Option.some.inj h
            rw [← h1]
        | cons n rest =>
            simp only [blockListWrites, List.mem_append, not_or] at hv
            obtain ⟨hvN, hvR⟩ := hv
            simp only [processBlock] at h
            cases h1 : processNode g s n with
            | none => simp only [h1] at h; cases h
            | some p1 =>
                cases p1 with
                | mk sa c1 =>
                    simp only [h1] at h
                    cases h2 : processBlock g sa rest with
                    | none => simp only [h2] at h; cases h
                    | some p2 =>
                        cases p2 with
                        | mk sb c2 =>
                            simp only [h2] at h
                            obtain ⟨hs1, hcc⟩ :=
                              Prod.mk.injEq .. ▸ Option.some.inj h
                            have hsz : 1 + sizeOf n + sizeOf rest ≤ k := by
                              have hk2 := hk
                              simp only [List.cons.sizeOf_spec] at hk2
                              omega
                            have IHP := IH (k - 1) (by omega)
                            rw [← hs1]
                            rw [IHP.2 rest (by omega) g sa sb c2 h2 v hvR]
                            exact IHP.1 n (by omega) g s sa c1 h1 v hvN

theorem processNode_frame {g : StaticMap} {s s1 : TypeMap} {c : Bool}
    {n : Node} (h : processNode g s n = some (s1, c)) :
    ∀ v, v ∉ nodeWrites n → s1 v = s v :=
  (processFrameAux (sizeOf n)).1 n le_rfl g s s1 c h

theorem processBlock_frame {g : StaticMap} {s s1 : TypeMap} {c : Bool}
    {ns : List Node} (h : processBlock g s ns = some (s1, c)) :
    ∀ v, v ∉ blockListWrites ns → s1 v = s v :=
  (processFrameAux (sizeOf ns)).2 ns le_rfl g s s1 c h

/-- Re-running a finished processIf from a table that agrees with its result
on the conditional's footprint is a no-op that reports no change, provided
the conditional is well formed and the branch traversals are themselves
stable (supplied as induction hypotheses). -/
theorem processIf_stable {g : StaticMap} {s s1 t : TypeMap} {c : Bool}
    {tns fns : List Node} {touts fouts outputs : List ValueId}
    {bs2 : List (List Node × List ValueId)}
    (IHt : ∀ s s1 t c, WFList tns → processBlock g s tns = some (s1, c) →
      agreeOn (blockListVals tns) t s1 → processBlock g t tns = some (t, false))
    (IHf : ∀ s s1 t c, WFList fns → processBlock g s fns = some (s1, c) →
      agreeOn (blockListVals fns) t s1 → processBlock g t fns = some (t, false))
    (hnd : outputs.Nodup)
    (hwf : WFBlocks outputs ((tns, touts) :: (fns, fouts) :: bs2))
    (h : processIf g s outputs ((tns, touts) :: (fns, fouts) :: bs2) =
      some (s1, c))
    (hag : agreeOn (outputs ++ blocksVals ((tns, touts) :: (fns, fouts) :: bs2))
      t s1) :
    processIf g t outputs ((tns, touts) :: (fns, fouts) :: bs2) =
      some (t, false) := by
  simp only [WFBlocks] at hwf
  obtain ⟨hwfT, hwfF, hTF, hOut⟩ := hwf
  have hagO : ∀ v ∈ outputs, t v = s1 v :=
    fun v hv => hag v (List.mem_append_left _ hv)
  have hmem : ∀ v, (v ∈ blockListVals tns ∨ v ∈ touts ∨
      v ∈ blockListVals fns ∨ v ∈ fouts) → t v = s1 v := by
    intro v hv
    apply hag
    apply List.mem_append_right
    simp only [blocksVals, List.mem_append]
    tauto
  simp only [processIf] at h ⊢
  cases h1 : processBlock g s tns with
  | none => simp only [h1] at h; cases h
  | some p1 =>
      cases p1 with
      | mk sa c1 =>
          simp only [h1] at h
          cases h2 : processBlock g sa fns with
          | none => simp only [h2] at h; cases h
          | some p2 =>
              cases p2 with
              | mk sb c2 =>
                  simp only [h2] at h
                  cases h3 : mergeAndApplyTensorProps sb touts fouts outputs with
                  | none => simp only [h3] at h; cases h
                  | some p3 =>
                      cases p3 with
                      | mk sm cm =>
                          simp only [h3] at h
                          obtain ⟨hs1, hcc⟩ :=
                            Prod.mk.injEq .. ▸ Option.some.inj h
                          obtain ⟨hlen1, hlen2, hml⟩ := mergeAndApply_elim h3
                          have F2 : ∀ v, v ∉ outputs → s1 v = sb v := by
                            intro v hv
                            rw [← hs1]
                            exact mergeAndApply_frame h3 v hv
                          have F1 : ∀ v, v ∉ blockListWrites fns →
                              sb v = sa v :=
                            fun v hv => processBlock_frame h2 v hv
                          have hagTA : agreeOn (blockListVals tns) t sa := by
                            intro v hv
                            have hvout : v ∉ outputs :=
                              fun hvo => (hOut v hvo).1 hv
                            rw [hmem v (Or.inl hv), F2 v hvout, F1 v (hTF v hv)]
                          have stepA : processBlock g t tns = some (t, false) :=
                            IHt s sa t c1 hwfT h1 hagTA
                          have hagFB : agreeOn (blockListVals fns) t sb := by
                            intro v hv
                            have hvout : v ∉ outputs :=
                              fun hvo => (hOut v hvo).2.1 hv
                            rw [hmem v (Or.inr (Or.inr (Or.inl hv))),
                              F2 v hvout]
                          have stepB : processBlock g t fns = some (t, false) :=
                            IHf sa sb t c2 hwfF h2 hagFB
                          have hdisj : ∀ d ∈ outputs, d ∉ touts ∧ d ∉ fouts :=
                            fun d hd =>
                              ⟨(hOut d hd).2.2.1, (hOut d hd).2.2.2⟩
                          have hstab : ∀ i v1 v2 d tt1 tt2,
                              touts.get? i = some v1 → fouts.get? i = some v2 →
                              outputs.get? i = some d →
                              t v1 = JType.tensor tt1 →
                              t v2 = JType.tensor tt2 →
                              ∃ ttd, t d = JType.tensor ttd ∧
                                ttd.device = mergeDevice tt1 tt2 := by
                            intro i v1 v2 d tt1 tt2 g1 g2 g3 ht1 ht2
                            have hv1m : v1 ∈ touts := List.get?_mem g1
                            have hv2m : v2 ∈ fouts := List.get?_mem g2
                            have hdm : d ∈ outputs := List.get?_mem g3
                            have hv1out : v1 ∉ outputs :=
                              fun hvo => (hOut v1 hvo).2.2.1 hv1m
                            have hv2out : v2 ∉ outputs :=
                              fun hvo => (hOut v2 hvo).2.2.2 hv2m
                            have hsb1 : sb v1 = JType.tensor tt1 := by
                              rw [← F2 v1 hv1out,
                                ← hmem v1 (Or.inr (Or.inl hv1m)), ht1]
                            have hsb2 : sb v2 = JType.tensor tt2 := by
                              rw [← F2 v2 hv2out,
                                ← hmem v2 (Or.inr (Or.inr (Or.inr hv2m))), ht2]
                            obtain ⟨ttd, htd, hfin⟩ := mergeLoop_post hml hnd
                              hdisj i v1 v2 d tt1 tt2 g1 g2 g3 hsb1 hsb2
                            refine ⟨ttd.withDevice (mergeDevice tt1 tt2),
                              ?_, rfl⟩
                            rw [hagO d hdm, ← hs1]
                            exact hfin
                          have stepC : mergeAndApplyTensorProps t touts fouts
                              outputs = some (t, false) := by
                            unfold mergeAndApplyTensorProps
                            rw [if_pos hlen1, if_pos hlen2]
                            exact mergeLoop_stable hstab false
                          simp [stepA, stepB, stepC]

/- Stability of the whole traversal: re-running a finished traversal from
its own result (or any table agreeing with it on the footprint) is the
identity and reports no change.  By strong induction on the size. -/

theorem processStableAux : ∀ k : Nat,
    (∀ n : Node, sizeOf n ≤ k → ∀ g s s1 t c,
      WFNode n → processNode g s n = some (s1, c) →
      agreeOn (nodeVals n) t s1 → processNode g t n = some (t, false)) ∧
    (∀ ns : List Node, sizeOf ns ≤ k → ∀ g s s1 t c,
      WFList ns → processBlock g s ns = some (s1, c) →
      agreeOn (blockListVals ns) t s1 → processBlock g t ns = some (t, false)) := by
  intro k
  induction k using Nat.strong_induction_on with
  | _ k IH =>
      constructor
      · -- node part
        intro n hk g s s1 t c hwf h hag
        cases n with
        | mk kind inputs outputs schema hasOp blocks =>
            simp only [WFNode] at hwf
            obtain ⟨hio, hnd, hwfb⟩ := hwf
            have hagBoth : ∀ v, v ∈ inputs ∨ v ∈ outputs → t v = s1 v := by
              intro v hv
              apply hag
              simp only [nodeVals, List.mem_append]
              tauto
            cases kind with
            | loopNode => rfl
            | callMethod => rfl
            | callFunction => rfl
            | constant =>
                simp only [processNode] at h ⊢
                by_cases hto : (outputs.any fun w => (s w).isTensor) = false
                · rw [if_pos hto] at h
                  obtain ⟨h1, h2⟩ := Prod.mk.injEq .. ▸ Option.some.inj h
                  have hTc : ∀ v ∈ outputs, (t v).isTensor = (s v).isTensor := by
                    intro v hv
                    rw [hagBoth v (Or.inr hv), ← h1]
                  rw [any_isTensor_congr hTc, if_pos hto]
                · rw [if_neg hto] at h
                  obtain ⟨h1, h2⟩ := Prod.mk.injEq .. ▸ Option.some.inj h
                  have hTc : ∀ v ∈ outputs, (t v).isTensor = (s v).isTensor := by
                    intro v hv
                    rw [hagBoth v (Or.inr hv), ← h1]
                  rw [any_isTensor_congr hTc, if_neg hto]
            | listConstruct =>
                simp only [processNode] at h ⊢
                by_cases hto : (outputs.any fun w => (s w).isTensor) = false
                · rw [if_pos hto] at h
                  obtain ⟨h1, h2⟩ := Prod.mk.injEq .. ▸ Option.some.inj h
                  have hTc : ∀ v ∈ outputs, (t v).isTensor = (s v).isTensor := by
                    intro v hv
                    rw [hagBoth v (Or.inr hv), ← h1]
                  rw [any_isTensor_congr hTc, if_pos hto]
                · rw [if_neg hto] at h
                  obtain ⟨h1, h2⟩ := Prod.mk.injEq .. ▸ Option.some.inj h
                  have hTc : ∀ v ∈ outputs, (t v).isTensor = (s v).isTensor := by
                    intro v hv
                    rw [hagBoth v (Or.inr hv), ← h1]
                  rw [any_isTensor_congr hTc, if_neg hto]
            | listUnpack =>
                simp only [processNode] at h ⊢
                by_cases hto : (outputs.any fun w => (s w).isTensor) = false
                · rw [if_pos hto] at h
                  obtain ⟨h1, h2⟩ := Prod.mk.injEq .. ▸ Option.some.inj h
                  have hTc : ∀ v ∈ outputs, (t v).isTensor = (s v).isTensor := by
                    intro v hv
                    rw [hagBoth v (Or.inr hv), ← h1]
                  rw [any_isTensor_congr hTc, if_pos hto]
                · rw [if_neg hto] at h
                  obtain ⟨h1, h2⟩ := Prod.mk.injEq .. ▸ Option.some.inj h
                  have hTc : ∀ v ∈ outputs, (t v).isTensor = (s v).isTensor := by
                    intro v hv
                    rw [hagBoth v (Or.inr hv), ← h1]
                  rw [any_isTensor_congr hTc, if_neg hto]
            | otherKind =>
                simp only [processNode] at h ⊢
                by_cases hto : (outputs.any fun w => (s w).isTensor) = false
                · rw [if_pos hto] at h
                  obtain ⟨h1, h2⟩ := Prod.mk.injEq .. ▸ Option.some.inj h
                  have hTc : ∀ v ∈ outputs, (t v).isTensor = (s v).isTensor := by
                    intro v hv
                    rw [hagBoth v (Or.inr hv), ← h1]
                  rw [any_isTensor_congr hTc, if_pos hto]
                · rw [if_neg hto] at h
                  obtain ⟨h1, h2⟩ := Prod.mk.injEq .. ▸ Option.some.inj h
                  have hTc : ∀ v ∈ outputs, (t v).isTensor = (s v).isTensor := by
                    intro v hv
                    rw [hagBoth v (Or.inr hv), ← h1]
                  rw [any_isTensor_congr hTc, if_neg hto]
            | aten =>
                simp only [processNode] at h ⊢
                by_cases hto : (outputs.any fun w => (s w).isTensor) = false
                · rw [if_pos hto] at h
                  obtain ⟨h1, h2⟩ := Prod.mk.injEq .. ▸ Option.some.inj h
                  have hTc : ∀ v ∈ outputs, (t v).isTensor = (s v).isTensor := by
                    intro v hv
                    rw [hagBoth v (Or.inr hv), ← h1]
                  rw [any_isTensor_congr hTc, if_pos hto]
                · rw [if_neg hto] at h
                  have hTc : ∀ v ∈ outputs, (t v).isTensor = (s v).isTensor := by
                    intro v hv
                    rw [hagBoth v (Or.inr hv)]
                    exact processAtenOps_isTensor h v
                  rw [any_isTensor_congr hTc, if_neg hto]
                  apply processAtenOps_stable _ h
                  · intro v hv
                    rcases List.mem_append.mp hv with hvi | hvo
                    · exact hagBoth v (Or.inl hvi)
                    · exact hagBoth v (Or.inr hvo)
                  · exact hio
            | ifNode =>
                simp only [processNode] at h ⊢
                cases blocks with
                | nil => simp only [processIf] at h; cases h
                | cons b0 bs =>
                    cases b0 with
                    | mk tns touts =>
                        cases bs with
                        | nil => simp only [processIf] at h; cases h
                        | cons b1 bs2 =>
                            cases b1 with
                            | mk fns fouts =>
                                have hsz : sizeOf tns + sizeOf fns < k := by
                                  simp only [Node.mk.sizeOf_spec,
                                    List.cons.sizeOf_spec,
                                    Prod.mk.sizeOf_spec] at hk
                                  omega
                                have IHP := IH (k - 1) (by omega)
                                apply processIf_stable
                                  (fun s s1 t c hwf2 h2 hag2 =>
                                    IHP.2 tns (by omega) g s s1 t c hwf2 h2 hag2)
                                  (fun s s1 t c hwf2 h2 hag2 =>
                                    IHP.2 fns (by omega) g s s1 t c hwf2 h2 hag2)
                                  hnd hwfb h
                                intro v hv
                                apply hag
                                simp only [nodeVals, List.mem_append]
                                rcases List.mem_append.mp hv with hvo | hvb
                                · tauto
                                · simp only [blocksVals, List.mem_append] at hvb
                                  simp only [blocksVals, List.mem_append]
                                  tauto
      · -- node-list part
        intro ns hk g s s1 t c hwf h hag
        cases ns with
        | nil => rfl
        | cons n rest =>
            simp only [WFList] at hwf
            obtain ⟨hwfn, hwfr, hdisj⟩ := hwf
            simp only [processBlock] at h ⊢
            cases h1 : processNode g s n with
            | none => simp only [h1] at h; cases h
            | some p1 =>
                cases p1 with
                | mk sa c1 =>
                    simp only [h1] at h
                    cases h2 : processBlock g sa rest with
                    | none => simp only [h2] at h; cases h
                    | some p2 =>
                        cases p2 with
                        | mk sb c2 =>
                            simp only [h2] at h
                            obtain ⟨hs1, hcc⟩ :=
                              Prod.mk.injEq .. ▸ Option.some.inj h
                            have hsz : 1 + sizeOf n + sizeOf rest ≤ k := by
                              have hk2 := hk
                              simp only [List.cons.sizeOf_spec] at hk2
                              omega
                            have IHP := IH (k - 1) (by omega)
                            have hagN : agreeOn (nodeVals n) t sa := by
                              intro v hv
                              have hts1 : t v = s1 v := by
                                apply hag
                                simp only [blockListVals, List.mem_append]
                                exact Or.inl hv
                              rw [hts1, ← hs1]
                              exact processBlock_frame h2 v (hdisj v hv)
                            have stepN : processNode g t n = some (t, false) :=
                              IHP.1 n (by omega) g s sa t c1 hwfn h1 hagN
                            have hagR : agreeOn (blockListVals rest) t sb := by
                              intro v hv
                              have hts1 : t v = s1 v := by
                                apply hag
                                simp only [blockListVals, List.mem_append]
                                exact Or.inr hv
                              rw [hts1, ← hs1]
                            have stepR : processBlock g t rest =
                                some (t, false) :=
                              IHP.2 rest (by omega) g sa sb t c2 hwfr h2 hagR
                            simp [stepN, stepR]

/-- Stability of a finished top-level traversal: re-running it from its own
result is the identity and reports no change. -/
theorem processBlock_stable {g : StaticMap} {s s1 : TypeMap} {c : Bool}
    {ns : List Node} (hwf : WFList ns)
    (h : processBlock g s ns = some (s1, c)) :
    processBlock g s1 ns = some (s1, false) :=
  (processStableAux (sizeOf ns)).2 ns le_rfl g s s1 s1 c hwf h
    (fun _ _ => rfl)

/-- Arguments whose declared type does not admit the device type as a
subtype are skipped by the argument scan. -/
theorem scanArgs_skip {g : StaticMap} {s : TypeMap} {n : Node}
    {pre : List Argument} (rest : List Argument)
    (hpre : ∀ a ∈ pre, ArgType.device.isSubtypeOf a.type = false) :
    ∀ i, scanArgs g s n (pre ++ rest) i = scanArgs g s n rest (i + pre.length) := by
  induction pre with
  | nil => intro i; simp
  | cons a pre ih =>
      intro i
      simp only [List.cons_append, scanArgs]
      rw [if_neg (by simp [hpre a (List.mem_cons_self ..)])]
      rw [show i + (a :: pre).length = i + 1 + pre.length by
        simp [List.length_cons]; omega]
      exact ih (fun b hb => hpre b (List.mem_cons_of_mem a hb)) (i + 1)

/- Single-step characterizations of the operand scan, used to trace the
loop of propWithNoDevice through concrete operand sequences. -/

/-- First tensor-typed input: adopt its device, record whether it is a cpu
zero-rank value. -/
theorem scanInputs_first {s : TypeMap} {inp : ValueId} {rest : List ValueId}
    {dv : Option Device} {rk : Option Nat} {z : Bool}
    (h : s inp = JType.tensor ⟨dv, rk⟩)
    (hz : ((rk == some 0 : Bool) && optIsCpu dv) = z)
    (device : Option Device) :
    scanInputs s (inp :: rest) device false false =
      scanInputs s rest dv true z := by
  simp only [scanInputs, h, JType.castTensor]
  rw [if_neg (by simp)]
  show scanInputs s rest dv true ((rk == some 0 : Bool) && optIsCpu dv) = _
  rw [hz]

/-- A cpu zero-rank input never changes the candidate or the flag. -/
theorem scanInputs_skip_exempt {s : TypeMap} {inp : ValueId}
    {rest : List ValueId} {dv : Option Device} {rk : Option Nat}
    {device : Option Device} {z : Bool}
    (h : s inp = JType.tensor ⟨dv, rk⟩)
    (hczd : ((rk == some 0 : Bool) && optIsCpu dv) = true) :
    scanInputs s (inp :: rest) device true z =
      scanInputs s rest device true z := by
  simp only [scanInputs, h, JType.castTensor]
  rw [if_pos trivial]
  rw [if_neg (by rw [hczd]; simp)]

/-- A non-exempt disagreeing input met while only cpu zero-rank inputs have
been seen promotes the candidate and clears the flag. -/
theorem scanInputs_promote {s : TypeMap} {inp : ValueId} {rest : List ValueId}
    {dv : Option Device} {rk : Option Nat} {device : Option Device}
    (h : s inp = JType.tensor ⟨dv, rk⟩)
    (hne : device ≠ dv)
    (hczd : ((rk == some 0 : Bool) && optIsCpu dv) = false) :
    scanInputs s (inp :: rest) device true true =
      scanInputs s rest dv true false := by
  simp only [scanInputs, h, JType.castTensor]
  rw [if_pos trivial]
  rw [if_pos ⟨hne, hczd⟩]
  rw [if_pos trivial]

/-- A non-exempt disagreeing input met after the flag has been cleared makes
the scan bail. -/
theorem scanInputs_bail_step {s : TypeMap} {inp : ValueId}
    {rest : List ValueId} {dv : Option Device} {rk : Option Nat}
    {device : Option Device}
    (h : s inp = JType.tensor ⟨dv, rk⟩)
    (hne : device ≠ dv)
    (hczd : ((rk == some 0 : Bool) && optIsCpu dv) = false) :
    scanInputs s (inp :: rest) device true false = ScanResult.bail := by
  simp only [scanInputs, h, JType.castTensor]
  rw [if_pos trivial]
  rw [if_pos ⟨hne, hczd⟩]
  rw [if_neg (by simp)]

/-
The claims.
-/

/-- C9: for every loop node, call node (by method name or by function
reference), constant node, list-construction node, and list-destructuring
node, the pass leaves every output device annotation exactly as it was on
entry and reports no change, regardless of the operand devices. -/
theorem c9_skip_classes_untouched (g : StaticMap) (s : TypeMap) (n : Node)
    (hk : n.kind = NodeKind.loopNode ∨ n.kind = NodeKind.callMethod ∨
      n.kind = NodeKind.callFunction ∨ n.kind = NodeKind.constant ∨
      n.kind = NodeKind.listConstruct ∨ n.kind = NodeKind.listUnpack) :
    processNode g s n = some (s, false) := by
  cases n with
  | mk kind inputs outputs schema hasOp blocks =>
      simp only [Node.kind] at hk
      rcases hk with rfl | rfl | rfl | rfl | rfl | rfl
      · rfl
      · rfl
      · rfl
      all_goals
        simp only [processNode]
        by_cases hto : (outputs.any fun w => (s w).isTensor) = false
        · rw [if_pos hto]
        · rw [if_neg hto]

/-- Witness for C9 at a concrete loop node. -/
theorem c9_witness :
    processNode (fun _ => none) (fun _ => JType.other)
      (Node.mk NodeKind.loopNode [0] [1] none false []) =
      some (fun _ => JType.other, false) :=
  c9_skip_classes_untouched (fun _ => none) (fun _ => JType.other)
    (Node.mk NodeKind.loopNode [0] [1] none false []) (Or.inl rfl)

/-- C6: a node with exactly two tensor operands on distinct, known,
non-default (non-cpu), non-zero-rank devices has every tensor-typed output
set to the unknown device by an actual write: previously set annotations are
overwritten, and any output that did not already carry the unknown device
makes the node report changed. -/
theorem c6_conflict_resolves_to_unknown
    (s : TypeMap) (kind : NodeKind) (x y : ValueId) (outs : List ValueId)
    (schema : Option FunctionSchema) (hasOp : Bool)
    (blocks : List (List Node × List ValueId))
    (d1 d2 : Device) (r1 r2 : Option Nat)
    (hx : s x = JType.tensor ⟨some d1, r1⟩)
    (hy : s y = JType.tensor ⟨some d2, r2⟩)
    (hne : d1 ≠ d2) (h1cpu : d1.is_cpu = false) (h2cpu : d2.is_cpu = false)
    (hr1 : r1 ≠ some 0) (hr2 : r2 ≠ some 0) :
    (propWithNoDevice s (Node.mk kind [x, y] outs schema hasOp blocks)).isSome ∧
    ∀ s1 c, propWithNoDevice s (Node.mk kind [x, y] outs schema hasOp blocks) =
        some (s1, c) →
      (∀ v ∈ outs, ∀ tt, s v = JType.tensor tt →
        s1 v = JType.tensor ⟨none, tt.rank⟩) ∧
      (∀ v ∈ outs, ∀ tt, s v = JType.tensor tt → tt.device ≠ none →
        c = true) := by
  have hcz1 : ((r1 == some 0 : Bool) && optIsCpu (some d1)) = false := by
    show ((r1 == some 0 : Bool) && d1.is_cpu) = false
    rw [h1cpu]
    exact Bool.and_false ..
  have hcz2 : ((r2 == some 0 : Bool) && optIsCpu (some d2)) = false := by
    show ((r2 == some 0 : Bool) && d2.is_cpu) = false
    rw [h2cpu]
    exact Bool.and_false ..
  have hbail : scanInputs s [x, y] none false false = ScanResult.bail := by
    rw [scanInputs_first hx hcz1 none]
    exact scanInputs_bail_step hy
      (fun he => hne (Option.some.inj he)) hcz2
  have heq : propWithNoDevice s (Node.mk kind [x, y] outs schema hasOp blocks) =
      setReturnsToDeviceLoop s false none outs := by
    unfold propWithNoDevice setReturnsToDevice
    simp only [Node.inputs, Node.outputs, hbail]
  constructor
  · rw [heq]
    exact srdLoop_isSome ..
  · intro s1 c h
    rw [heq] at h
    constructor
    · intro v hv tt hvt
      have := srdLoop_post h v hv tt hvt
      simpa [TensorType.withDevice] using this
    · intro v hv tt hvt hdev
      exact srdLoop_changed hv hvt hdev h

/-- Witness for C6 at a concrete conflicting node. -/
theorem c6_witness :
    (propWithNoDevice
        (fun v => if v = 0 then JType.tensor ⟨some ⟨1, 0⟩, some 2⟩
          else if v = 1 then JType.tensor ⟨some ⟨2, 0⟩, some 2⟩
          else JType.tensor ⟨some ⟨1, 0⟩, some 3⟩)
        (Node.mk NodeKind.aten [0, 1] [5] none true [])).isSome := by
  refine (c6_conflict_resolves_to_unknown _ NodeKind.aten 0 1 [5] none true []
    ⟨1, 0⟩ ⟨2, 0⟩ (some 2) (some 2) rfl rfl ?_ rfl rfl ?_ ?_).1 <;> decide

/-- C5: with tensor inputs scanned in order A, B (both zero-rank on a cpu
device), C (on d1), D (on d2, d2 distinct from d1), the candidate stays in
the only-zero-rank state through A and B, is promoted to d1 at C clearing
the flag, D conflicts with the now non-exempt candidate, and every tensor
output resolves to the unknown device. -/
theorem c5_zero_rank_non_transitive
    (s : TypeMap) (kind : NodeKind) (a b cc dd : ValueId)
    (outs : List ValueId) (schema : Option FunctionSchema) (hasOp : Bool)
    (blocks : List (List Node × List ValueId))
    (dA dB d1 d2 : Device) (rC rD : Option Nat)
    (hA : s a = JType.tensor ⟨some dA, some 0⟩)
    (hB : s b = JType.tensor ⟨some dB, some 0⟩)
    (hAcpu : dA.is_cpu = true) (hBcpu : dB.is_cpu = true)
    (hC : s cc = JType.tensor ⟨some d1, rC⟩)
    (hD : s dd = JType.tensor ⟨some d2, rD⟩)
    (hCz : ¬ (rC = some 0 ∧ d1.is_cpu = true))
    (hDz : ¬ (rD = some 0 ∧ d2.is_cpu = true))
    (h1A : d1 ≠ dA) (h12 : d2 ≠ d1) :
    scanInputs s [a, b, cc, dd] none false false =
        scanInputs s [cc, dd] (some dA) true true ∧
    scanInputs s [cc, dd] (some dA) true true =
        scanInputs s [dd] (some d1) true false ∧
    scanInputs s [dd] (some d1) true false = ScanResult.bail ∧
    ∀ s1 c, propWithNoDevice s
        (Node.mk kind [a, b, cc, dd] outs schema hasOp blocks) = some (s1, c) →
      ∀ v ∈ outs, ∀ tt, s v = JType.tensor tt →
        s1 v = JType.tensor ⟨none, tt.rank⟩ := by
  have hCzb : ((rC == some 0 : Bool) && optIsCpu (some d1)) = false := by
    show ((rC == some 0 : Bool) && d1.is_cpu) = false
    cases hb : (rC == some 0 : Bool) with
    | false => rfl
    | true =>
        cases hcpu : d1.is_cpu with
        | false => rfl
        | true => exact absurd ⟨eq_of_beq hb, hcpu⟩ hCz
  have hDzb : ((rD == some 0 : Bool) && optIsCpu (some d2)) = false := by
    show ((rD == some 0 : Bool) && d2.is_cpu) = false
    cases hb : (rD == some 0 : Bool) with
    | false => rfl
    | true =>
        cases hcpu : d2.is_cpu with
        | false => rfl
        | true => exact absurd ⟨eq_of_beq hb, hcpu⟩ hDz
  have hAz : ((some 0 == some 0 : Bool) && optIsCpu (some dA)) = true := by
    show ((some 0 == some 0 : Bool) && dA.is_cpu) = true
    rw [hAcpu]
    decide
  have hBz : ((some 0 == some 0 : Bool) && optIsCpu (some dB)) = true := by
    show ((some 0 == some 0 : Bool) && dB.is_cpu) = true
    rw [hBcpu]
    decide
  have step1 : scanInputs s [a, b, cc, dd] none false false =
      scanInputs s [cc, dd] (some dA) true true := by
    rw [scanInputs_first hA hAz none]
    exact scanInputs_skip_exempt hB hBz
  have step2 : scanInputs s [cc, dd] (some dA) true true =
      scanInputs s [dd] (some d1) true false :=
    scanInputs_promote hC
      (fun he => h1A (Option.some.inj he).symm) hCzb
  have step3 : scanInputs s [dd] (some d1) true false = ScanResult.bail :=
    scanInputs_bail_step hD
      (fun he => h12 (Option.some.inj he).symm) hDzb
  refine ⟨step1, step2, step3, ?_⟩
  intro s1 c h v hv tt hvt
  have hbail : scanInputs s [a, b, cc, dd] none false false =
      ScanResult.bail := by rw [step1, step2, step3]
  have heq : propWithNoDevice s
      (Node.mk kind [a, b, cc, dd] outs schema hasOp blocks) =
      setReturnsToDeviceLoop s false none outs := by
    unfold propWithNoDevice setReturnsToDevice
    simp only [Node.inputs, Node.outputs, hbail]
  rw [heq] at h
  have := srdLoop_post h v hv tt hvt
  simpa [TensorType.withDevice] using this

/-- Witness for C5 at concrete devices. -/
theorem c5_witness :
    scanInputs
        (fun v => if v = 0 then JType.tensor ⟨some ⟨0, 0⟩, some 0⟩
          else if v = 1 then JType.tensor ⟨some ⟨0, 1⟩, some 0⟩
          else if v = 2 then JType.tensor ⟨some ⟨1, 0⟩, some 2⟩
          else if v = 3 then JType.tensor ⟨some ⟨2, 0⟩, some 2⟩
          else JType.other)
        [3] (some ⟨1, 0⟩) true false = ScanResult.bail := by
  refine (c5_zero_rank_non_transitive
    (fun v => if v = 0 then JType.tensor ⟨some ⟨0, 0⟩, some 0⟩
      else if v = 1 then JType.tensor ⟨some ⟨0, 1⟩, some 0⟩
      else if v = 2 then JType.tensor ⟨some ⟨1, 0⟩, some 2⟩
      else if v = 3 then JType.tensor ⟨some ⟨2, 0⟩, some 2⟩
      else JType.other)
    NodeKind.aten 0 1 2 3 [] none true [] ⟨0, 0⟩ ⟨0, 1⟩ ⟨1, 0⟩ ⟨2, 0⟩
    (some 2) (some 2) rfl rfl rfl rfl rfl rfl ?_ ?_ ?_ ?_).2.2.1 <;> decide

/-- The argument scan after skipping the leading arguments that fail the
subtype test: its behavior at the first passing argument, driven by the
statically-known value of the matching input. -/
theorem scanArgs_at_device {g : StaticMap} {s : TypeMap} {n : Node}
    {pre : List Argument} (rest : List Argument) {argT : ArgType}
    {vi : ValueId}
    (hpre : ∀ a ∈ pre, ArgType.device.isSubtypeOf a.type = false)
    (harg : ArgType.device.isSubtypeOf argT = true)
    (hvi : n.inputs.get? pre.length = some vi) :
    scanArgs g s n (pre ++ ⟨argT⟩ :: rest) 0 =
      match g vi with
      | none => some (s, false)
      | some input_val =>
          if input_val.isNone then scanArgs g s n rest (pre.length + 1)
          else if input_val.isDevice = false then some (s, false)
          else setReturnsToDevice s n (some input_val.toDevice) := by
  rw [scanArgs_skip (⟨argT⟩ :: rest) hpre 0]
  simp only [scanArgs, Nat.zero_add]
  rw [if_pos harg]
  simp only [hvi]

/-- C7: a built-in operator whose schema carries a device-typed parameter
statically bound to the concrete device e sets e on every tensor output,
even when every tensor operand resides on a different device f: the
explicit device argument takes precedence over operand resolution. -/
theorem c7_explicit_device_overrides_operands
    (g : StaticMap) (s : TypeMap) (kind : NodeKind)
    (inputs outs : List ValueId) (hasOp : Bool)
    (blocks : List (List Node × List ValueId))
    (pre rest : List Argument) (argT : ArgType) (vi : ValueId) (e f : Device)
    (hpre : ∀ a ∈ pre, ArgType.device.isSubtypeOf a.type = false)
    (harg : ArgType.device.isSubtypeOf argT = true)
    (hvi : inputs.get? pre.length = some vi)
    (hgvi : g vi = some (IValue.device e))
    (hops : ∀ v ∈ inputs, ∀ tt, s v = JType.tensor tt → tt.device = some f)
    (hef : f ≠ e) :
    (defaultDeviceProp g s (Node.mk kind inputs outs
      (some ⟨pre ++ ⟨argT⟩ :: rest⟩) hasOp blocks)).isSome ∧
    ∀ s1 c, defaultDeviceProp g s (Node.mk kind inputs outs
        (some ⟨pre ++ ⟨argT⟩ :: rest⟩) hasOp blocks) = some (s1, c) →
      ∀ v ∈ outs, ∀ tt, s v = JType.tensor tt →
        s1 v = JType.tensor ⟨some e, tt.rank⟩ := by
  have heq : defaultDeviceProp g s (Node.mk kind inputs outs
      (some ⟨pre ++ ⟨argT⟩ :: rest⟩) hasOp blocks) =
      setReturnsToDeviceLoop s false (some e) outs := by
    unfold defaultDeviceProp
    simp only [Node.schema]
    rw [scanArgs_at_device rest hpre harg (by simpa [Node.inputs] using hvi)]
    simp only [hgvi]
    rw [if_neg (by simp [IValue.isNone])]
    rw [if_neg (by simp [IValue.isDevice])]
    unfold setReturnsToDevice
    simp only [Node.outputs, IValue.toDevice]
  constructor
  · rw [heq]
    exact srdLoop_isSome ..
  · intro s1 c h v hv tt hvt
    rw [heq] at h
    have := srdLoop_post h v hv tt hvt
    simpa [TensorType.withDevice] using this

/-- Witness for C7. -/
theorem c7_witness :
    (defaultDeviceProp
      (fun v => if v = 0 then some (IValue.device ⟨1, 0⟩) else none)
      (fun v => if v = 1 then JType.tensor ⟨some ⟨2, 0⟩, some 2⟩
        else JType.other)
      (Node.mk NodeKind.aten [0, 1] [5]
        (some ⟨[⟨ArgType.device⟩, ⟨ArgType.tensorTy⟩]⟩) true [])).isSome := by
  refine (c7_explicit_device_overrides_operands
    (fun v => if v = 0 then some (IValue.device ⟨1, 0⟩) else none)
    (fun v => if v = 1 then JType.tensor ⟨some ⟨2, 0⟩, some 2⟩
      else JType.other)
    NodeKind.aten [0, 1] [5] true [] [] [⟨ArgType.tensorTy⟩] ArgType.device
    0 ⟨1, 0⟩ ⟨2, 0⟩ ?_ ?_ ?_ ?_ ?_ ?_).1
  · intro a ha
    cases ha
  · decide
  · rfl
  · rfl
  · intro v hv tt hvt
    cases hv with
    | head =>
        simp at hvt
    | tail _ hv2 =>
        cases hv2 with
        | head =>
            simp only [if_pos rfl] at hvt
            rw [← JType.tensor.inj hvt]
        | tail _ hv3 => cases hv3
  · decide

/-- C8: when the selected device-typed parameter's input value is not
statically determinable, or is statically present but not a single device,
inference for the node is aborted atomically: the type table is returned
unchanged and the node reports no change. -/
theorem c8_indeterminate_device_aborts
    (g : StaticMap) (s : TypeMap) (kind : NodeKind)
    (inputs outs : List ValueId) (hasOp : Bool)
    (blocks : List (List Node × List ValueId))
    (pre rest : List Argument) (argT : ArgType) (vi : ValueId)
    (hpre : ∀ a ∈ pre, ArgType.device.isSubtypeOf a.type = false)
    (harg : ArgType.device.isSubtypeOf argT = true)
    (hvi : inputs.get? pre.length = some vi)
    (hbad : g vi = none ∨
      ∃ iv, g vi = some iv ∧ iv.isNone = false ∧ iv.isDevice = false) :
    defaultDeviceProp g s (Node.mk kind inputs outs
      (some ⟨pre ++ ⟨argT⟩ :: rest⟩) hasOp blocks) = some (s, false) := by
  unfold defaultDeviceProp
  simp only [Node.schema]
  rw [scanArgs_at_device rest hpre harg (by simpa [Node.inputs] using hvi)]
  rcases hbad with hnone | ⟨iv, hiv, hn, hd⟩
  · simp [hnone]
  · simp only [hiv]
    rw [if_neg (by simp [hn])]
    rw [if_pos hd]

/-- Witness for C8, in both abort modes. -/
theorem c8_witness :
    defaultDeviceProp (fun _ => none)
      (fun v => if v = 1 then JType.tensor ⟨some ⟨2, 0⟩, some 2⟩
        else JType.other)
      (Node.mk NodeKind.aten [0] [1] (some ⟨[⟨ArgType.device⟩]⟩) true []) =
      some (fun v => if v = 1 then JType.tensor ⟨some ⟨2, 0⟩, some 2⟩
        else JType.other, false) ∧
    defaultDeviceProp (fun v => if v = 0 then some (IValue.intVal 7) else none)
      (fun v => if v = 1 then JType.tensor ⟨some ⟨2, 0⟩, some 2⟩
        else JType.other)
      (Node.mk NodeKind.aten [0] [1] (some ⟨[⟨ArgType.device⟩]⟩) true []) =
      some (fun v => if v = 1 then JType.tensor ⟨some ⟨2, 0⟩, some 2⟩
        else JType.other, false) := by
  constructor
  · exact c8_indeterminate_device_aborts (fun _ => none)
      (fun v => if v = 1 then JType.tensor ⟨some ⟨2, 0⟩, some 2⟩
        else JType.other)
      NodeKind.aten [0] [1] true [] [] [] ArgType.device 0
      (fun a ha => absurd ha (List.not_mem_nil a)) (by decide) rfl (Or.inl rfl)
  · exact c8_indeterminate_device_aborts
      (fun v => if v = 0 then some (IValue.intVal 7) else none)
      (fun v => if v = 1 then JType.tensor ⟨some ⟨2, 0⟩, some 2⟩
        else JType.other)
      NodeKind.aten [0] [1] true [] [] [] ArgType.device 0
      (fun a ha => absurd ha (List.not_mem_nil a)) (by decide) rfl
      (Or.inr ⟨IValue.intVal 7, rfl, rfl, rfl⟩)

/- C3: the argument-scan subtype test. -/

def c3g : StaticMap := fun v =>
  if v = 0 then some (IValue.device ⟨1, 0⟩) else none

def c3s : TypeMap := fun v =>
  if v = 1 then JType.tensor ⟨some ⟨2, 0⟩, some 2⟩ else JType.other

def c3n : Node :=
  Node.mk NodeKind.aten [0] [1]
    (some ⟨[⟨ArgType.optional ArgType.device⟩]⟩) true []

/-- C3 counterexample: the single schema parameter has declared type
optional-device, which is not a subtype of the device type (it is a strict
supertype), yet the scan selects it: the node's output receives the
parameter's device ⟨1,0⟩, not the result operand resolution would have
produced. -/
theorem c3_counterexample :
    ArgType.isSubtypeOf (ArgType.optional ArgType.device) ArgType.device =
      false ∧
    ArgType.device.isSubtypeOf (ArgType.optional ArgType.device) = true ∧
    (defaultDeviceProp c3g c3s c3n).map (fun p => p.1 1) =
      some (JType.tensor ⟨some ⟨1, 0⟩, some 2⟩) ∧
    (propWithNoDevice c3s c3n).map (fun p => p.1 1) =
      some (JType.tensor ⟨none, some 2⟩) := by
  decide

/-- C3 amended: the scan inspects the input of the first schema parameter
whose declared type is a supertype of the device type (the device type is a
subtype of the declared type); parameters failing that test are skipped, and
a parameter of optional-device type is selected.  When the selected input is
statically a concrete device e, the node's tensor outputs are set to e. -/
theorem c3_amended_supertype_param_selected
    (g : StaticMap) (s : TypeMap) (kind : NodeKind)
    (inputs outs : List ValueId) (hasOp : Bool)
    (blocks : List (List Node × List ValueId))
    (pre rest : List Argument) (argT : ArgType) (vi : ValueId) (e : Device)
    (hpre : ∀ a ∈ pre, ArgType.device.isSubtypeOf a.type = false)
    (harg : ArgType.device.isSubtypeOf argT = true)
    (hvi : inputs.get? pre.length = some vi)
    (hgvi : g vi = some (IValue.device e)) :
    defaultDeviceProp g s (Node.mk kind inputs outs
      (some ⟨pre ++ ⟨argT⟩ :: rest⟩) hasOp blocks) =
    setReturnsToDevice s (Node.mk kind inputs outs
      (some ⟨pre ++ ⟨argT⟩ :: rest⟩) hasOp blocks) (some e) := by
  unfold defaultDeviceProp
  simp only [Node.schema]
  rw [scanArgs_at_device rest hpre harg (by simpa [Node.inputs] using hvi)]
  simp only [hgvi]
  rw [if_neg (by simp [IValue.isNone])]
  rw [if_neg (by simp [IValue.isDevice])]
  rfl

/-- Witness for the amended C3 at the optional-device schema. -/
theorem c3_witness :
    defaultDeviceProp c3g c3s c3n = setReturnsToDevice c3s c3n (some ⟨1, 0⟩) :=
  c3_amended_supertype_param_selected c3g c3s NodeKind.aten [0] [1] true []
    [] [] (ArgType.optional ArgType.device) 0 ⟨1, 0⟩
    (fun a ha => absurd ha (List.not_mem_nil a)) (by decide) rfl rfl

/- C2: the branch-join merge has no zero-rank exception. -/

def c2s : TypeMap := fun v =>
  if v = 1 then JType.tensor ⟨some ⟨0, 0⟩, some 0⟩
  else if v = 2 then JType.tensor ⟨some ⟨1, 0⟩, some 3⟩
  else if v = 3 then JType.tensor ⟨some ⟨1, 0⟩, some 3⟩
  else JType.other

def c2s1 : TypeMap := setType c2s 3 (JType.tensor ⟨none, some 3⟩)

/-- C2 counterexample: at the branch join, the true branch's exit value is a
zero-rank tensor on the default (cpu) location and the false branch's exit
value is on another device; the claim predicts the other side's device
⟨1,0⟩ on the conditional's output, but the merge writes the unknown
device. -/
theorem c2_counterexample :
    (c2s 1 = JType.tensor ⟨some ⟨0, 0⟩, some 0⟩ ∧
      Device.is_cpu ⟨0, 0⟩ = true ∧
      c2s 2 = JType.tensor ⟨some ⟨1, 0⟩, some 3⟩) ∧
    (mergeAndApplyTensorProps c2s [1] [2] [3]).map (fun p => p.1 3) =
      some (JType.tensor ⟨none, some 3⟩) := by
  decide

/-- C2 amended: the device written to the conditional's i-th output is
computed by plain device equality over the two branches' i-th exit values:
the shared device when both are known and equal, the unknown device
otherwise; the zero-rank default-location exception does not apply at the
branch join (the formula below never consults a rank). -/
theorem c2_amended_merge_plain_equality
    {s s1 : TypeMap} {src1 src2 dst : List ValueId} {c : Bool}
    (h : mergeAndApplyTensorProps s src1 src2 dst = some (s1, c))
    (hnd : dst.Nodup) (hdisj : ∀ d ∈ dst, d ∉ src1 ∧ d ∉ src2)
    (i : Nat) (v1 v2 d : ValueId) (tt1 tt2 : TensorType)
    (h1 : src1.get? i = some v1) (h2 : src2.get? i = some v2)
    (h3 : dst.get? i = some d)
    (ht1 : s v1 = JType.tensor tt1) (ht2 : s v2 = JType.tensor tt2) :
    ∃ ttd, s d = JType.tensor ttd ∧
      s1 d = JType.tensor (ttd.withDevice
        (if tt1.device = none ∨ tt2.device = none ∨
            ¬ tt1.device = tt2.device
          then none else tt1.device)) :=
  mergeLoop_post (mergeAndApply_elim h).2.2 hnd hdisj i v1 v2 d tt1 tt2
    h1 h2 h3 ht1 ht2

/-- Witness for the amended C2: the zero-rank cpu side does not win. -/
theorem c2_witness :
    ∃ ttd, c2s 3 = JType.tensor ttd ∧
      c2s1 3 = JType.tensor (ttd.withDevice
        (if (some ⟨0, 0⟩ : Option Device) = none ∨
            (some ⟨1, 0⟩ : Option Device) = none ∨
            ¬ (some ⟨0, 0⟩ : Option Device) = some ⟨1, 0⟩
          then none else (some ⟨0, 0⟩ : Option Device))) :=
  @c2_amended_merge_plain_equality c2s c2s1 [1] [2] [3] true (by rfl)
    (by decide) (by decide) 0 1 2 3 ⟨some ⟨0, 0⟩, some 0⟩
    ⟨some ⟨1, 0⟩, some 3⟩ rfl rfl rfl rfl rfl

/- C1: the accumulated changed flag and the branch-join merge. -/

def c1s : TypeMap := fun v =>
  if v = 1 then JType.tensor ⟨some ⟨0, 0⟩, some 1⟩
  else if v = 2 then JType.tensor ⟨some ⟨0, 0⟩, some 1⟩
  else if v = 3 then JType.tensor ⟨none, some 1⟩
  else JType.other

def c1g : StaticMap := fun _ => none

def c1n : Node :=
  Node.mk NodeKind.ifNode [0] [3] none false [([], [1]), ([], [2])]

def c1graph : Graph := ⟨[c1n]⟩

def c1sAfter : TypeMap := setType c1s 3 (JType.tensor ⟨some ⟨0, 0⟩, some 1⟩)

/-- C1 counterexample: the run's only mutation is the write of device ⟨0,0⟩
to the If node's output 3 at the branch-join merge, yet the pass returns
changed = false. -/
theorem c1_counterexample :
    (DeviceTypePropagation c1g c1s c1graph).map Prod.snd = some false ∧
    (DeviceTypePropagation c1g c1s c1graph).map (fun p => p.1 3) =
      some (JType.tensor ⟨some ⟨0, 0⟩, some 1⟩) ∧
    c1s 3 = JType.tensor ⟨none, some 1⟩ := by
  decide

/-- C1 amended: the boolean the pass returns is the OR of the output
mutations made while processing operator nodes, including inside branch
blocks, but the mutations that the branch-join merge makes to a conditional
node's own outputs are not included: processing a conditional returns the OR
of the two branches' accumulators and discards the merge step's own changed
flag, so the pass can change an If output's annotation and still return
changed = false. -/
theorem c1_amended_if_discards_merge_changed
    (g : StaticMap) (s sa sb sm : TypeMap) (c1 c2 cm : Bool)
    (inputs outputs : List ValueId) (schema : Option FunctionSchema)
    (hasOp : Bool) (tns fns : List Node) (touts fouts : List ValueId)
    (bs2 : List (List Node × List ValueId))
    (h1 : processBlock g s tns = some (sa, c1))
    (h2 : processBlock g sa fns = some (sb, c2))
    (h3 : mergeAndApplyTensorProps sb touts fouts outputs = some (sm, cm)) :
    processNode g s (Node.mk NodeKind.ifNode inputs outputs schema hasOp
      ((tns, touts) :: (fns, fouts) :: bs2)) = some (sm, c1 || c2) := by
  simp only [processNode, processIf, h1, h2, h3]

/-- Witness for the amended C1: merge changed = true is discarded. -/
theorem c1_witness :
    processNode c1g c1s c1n = some (c1sAfter, false) :=
  c1_amended_if_discards_merge_changed c1g c1s c1s c1s c1sAfter false false
    true [0] [3] none false [] [] [1] [2] [] rfl rfl rfl

/-- C10: at every branch-join position where both branch exit values are
tensor-typed, the conditional's own output must be tensor-typed for the
merge to be total; under that precondition (with the asserted equal lengths)
the merge never aborts, and when it is violated at some position the pass
aborts instead of writing. -/
theorem c10_merge_totality :
    (∀ (s : TypeMap) (src1 src2 dst : List ValueId),
      src1.length = src2.length → src1.length = dst.length →
      (∀ i v1 v2 d, src1.get? i = some v1 → src2.get? i = some v2 →
        dst.get? i = some d → (s v1).isTensor = true →
        (s v2).isTensor = true → (s d).isTensor = true) →
      (mergeAndApplyTensorProps s src1 src2 dst).isSome) ∧
    (∀ (s : TypeMap) (src1 src2 dst : List ValueId) (i : Nat)
      (v1 v2 d : ValueId),
      src1.length = src2.length → src1.length = dst.length →
      src1.get? i = some v1 → src2.get? i = some v2 → dst.get? i = some d →
      (s v1).isTensor = true → (s v2).isTensor = true →
      (s d).isTensor = false →
      mergeAndApplyTensorProps s src1 src2 dst = none) := by
  constructor
  · intro s src1 src2 dst hl1 hl2 hcond
    unfold mergeAndApplyTensorProps
    rw [if_pos hl1, if_pos hl2]
    exact mergeLoop_total hcond
  · intro s src1 src2 dst i v1 v2 d hl1 hl2 h1 h2 h3 hT1 hT2 hTd
    unfold mergeAndApplyTensorProps
    rw [if_pos hl1, if_pos hl2]
    exact mergeLoop_abort h1 h2 h3 hT1 hT2 hTd

def c10s : TypeMap := fun v =>
  if v = 0 then JType.tensor ⟨some ⟨0, 0⟩, some 1⟩
  else if v = 1 then JType.tensor ⟨some ⟨0, 0⟩, some 1⟩
  else if v = 2 then JType.tensor ⟨none, some 1⟩
  else JType.other

/-- Witness for C10: the merge succeeds on a tensor-typed destination and
aborts on a non-tensor destination. -/
theorem c10_witness :
    (mergeAndApplyTensorProps c10s [0] [1] [2]).isSome ∧
    mergeAndApplyTensorProps c10s [0] [1] [5] = none := by
  constructor
  · apply c10_merge_totality.1 c10s [0] [1] [2] rfl rfl
    intro i v1 v2 d h1 h2 h3 hT1 hT2
    cases i with
    | zero =>
        simp only [List.get?_cons_zero, Option.some.injEq] at h1 h2 h3
        rw [← h3]
        decide
    | succ j => simp at h1
  · exact c10_merge_totality.2 c10s [0] [1] [5] 0 0 1 5 rfl rfl rfl rfl rfl
      (by decide) (by decide) (by decide)

/- C4: idempotence. -/

/-- C4: each individual device write is idempotent (re-applying the same
resolved device to a value produces no further changed signal), and on every
well-formed (SSA-style) graph a second run of the pass immediately after a
first run returns changed = false with every device annotation exactly as
the first run left it. -/
theorem c4_idempotent :
    (∀ (s : TypeMap) (v : ValueId) (d : Option Device) (s1 : TypeMap)
      (c : Bool), setDeviceType s v d = some (s1, c) →
      setDeviceType s1 v d = some (s1, false)) ∧
    (∀ (g : StaticMap) (graph : Graph) (s s1 : TypeMap) (c : Bool),
      WFGraph graph → DeviceTypePropagation g s graph = some (s1, c) →
      DeviceTypePropagation g s1 graph = some (s1, false)) := by
  constructor
  · intro s v d s1 c h
    obtain ⟨tt, hv⟩ := setDeviceType_tensor_of_some h
    exact setDeviceType_idem (setDeviceType_post hv h) rfl
  · intro g graph s s1 c hwf h
    exact processBlock_stable hwf h

def c4s : TypeMap := fun v =>
  if v = 0 then JType.tensor ⟨some ⟨1, 0⟩, some 2⟩
  else if v = 1 then JType.tensor ⟨none, some 2⟩
  else JType.other

def c4g : StaticMap := fun _ => none

def c4n : Node := Node.mk NodeKind.aten [0] [1] (some ⟨[]⟩) true []

def c4graph : Graph := ⟨[c4n]⟩

def c4s1 : TypeMap := setType c4s 1 (JType.tensor ⟨some ⟨1, 0⟩, some 2⟩)

/-- Witness for C4: a concrete changing write and a concrete changing run,
each idempotent the second time around. -/
theorem c4_witness :
    setDeviceType c4s1 1 (some ⟨1, 0⟩) = some (c4s1, false) ∧
    DeviceTypePropagation c4g c4s1 c4graph = some (c4s1, false) := by
  constructor
  · exact c4_idempotent.1 c4s 1 (some ⟨1, 0⟩) c4s1 true rfl
  · apply c4_idempotent.2 c4g c4graph c4s c4s1 true
    · show WFList [c4n]
      simp only [WFList, WFNode, WFBlocks, c4n]
      refine ⟨⟨?_, ?_, trivial⟩, trivial, ?_⟩
      · decide
      · decide
      · intro v hv
        simp [blockListWrites]
    · rfl

end DeviceTypeAnalysis
